import Mathlib

/-!
The FDF image reader (`itkFDFImageIO.cxx`)

A shallow embedding of `itk::FDFImageIO`: the file probe `CanReadFile`, the
header field dispatch of `ReadImageInformation`, the computation of the payload
offset and of the spacing, `Read`, `SwapBytesIfNecessary` and the write members.

Conventions of the embedding.

* The object `*this` is the record `FDFImageIOData R`; a member function takes the
  record and returns the record after the call.
* `R` is the type of the floating-point numbers of the program (`float` and
  `double`).  Nothing is assumed about its arithmetic: the source multiplies,
  divides, converts integers and compares with `==`, and the embedding asks for
  these four operations and no law about them.
* A C++ exception is `Except.error`.  An access `v[i]` of a `std::vector` outside
  its bounds is undefined behaviour in the source; the embedding stops there with
  `Error.outOfRange`.
* `std::string::size_type` is 64 bits wide: positions are natural numbers, the
  subtraction `filename.length() - 4` is taken modulo `2^64`, and `npos` is
  `2^64 - 1`.
* Loop counters, axis sizes and byte counts are natural numbers: the number of
  axes of an image is far below `2^16`, where `i * numDim + j` would first wrap
  in `unsigned` arithmetic, and the size of an image in bytes is the product of
  its axis sizes and of the component size over the integers.
* The base class `ImageIOBase`, `ByteSwapper` and `vnl_matrix` belong to ITK and
  the helpers `ParseLine`, `Tokenize`, `StringToVector`, `ConvertFromString` to
  `itkFDFCommonImageIO.h`; none of them is in the source file.  The members of
  the base class and `ByteSwapper` are written out after their behaviour in ITK;
  the helpers and `vnl_determinant` are parameters (`Common R`).
* `std::ifstream` follows the C++ standard: `seekg` to a negative position sets
  `failbit`, and `read` at the end of the file sets `eofbit` and `failbit` but not
  `badbit`.  What the standard leaves to the library and to the device is a
  parameter of `Read` (`StreamBehaviour`).
-/

-- Results of member functions are compared by evaluation.
deriving instance DecidableEq for Except

namespace FDF

/-! ## Errors, enumerations, platform -/

/-- The ways a member function leaves by an exception, and `outOfRange` for an
out-of-bounds vector access. -/
inductive Error where
  /-- `CanReadFile`: "File ... cannot be read." -/
  | cannotBeRead (fileName : String)
  /-- `RAISE_EXCEPTION()`. -/
  | raised
  /-- `itkExceptionMacro("Unknown component type: " << value)`. -/
  | unknownComponentType (value : String)
  /-- `itkExceptionMacro("Error reading image data.")`. -/
  | errorReadingImageData
  /-- `SwapBytesIfNecessary`: "Pixel Type Unknown". -/
  | pixelTypeUnknown
  /-- `ByteSwapper<T>` instantiated at an element size other than 1, 2, 4, 8. -/
  | byteSwapperError
  /-- `GetComponentSize()` of the base class on an unknown component type. -/
  | unknownComponentSize
  /-- A vector or buffer access outside its bounds. -/
  | outOfRange
  deriving DecidableEq, Repr

/-- `IOByteOrderEnum`; the base class starts at `OrderNotApplicable`. -/
inductive IOByteOrderEnum where
  | BigEndian
  | LittleEndian
  | OrderNotApplicable
  deriving DecidableEq, Repr

/-- `IOComponentEnum`, restricted to the value an object starts with and the ten
values the `storage` field can select. -/
inductive IOComponentEnum where
  | UNKNOWNCOMPONENTTYPE
  | UCHAR
  | CHAR
  | USHORT
  | SHORT
  | UINT
  | INT
  | ULONG
  | LONG
  | FLOAT
  | DOUBLE
  deriving DecidableEq, Repr

/-- `IOPixelEnum`, the two values this reader meets. -/
inductive IOPixelEnum where
  | UNKNOWNPIXELTYPE
  | SCALAR
  deriving DecidableEq, Repr

/-- `IOFileEnum`, the two values this reader meets. -/
inductive IOFileEnum where
  | TypeNotApplicable
  | Binary
  deriving DecidableEq, Repr

/-- The machine the reader runs on: its byte order
(`ByteSwapper<T>::SystemIsBigEndian()`) and whether `long` has 8 bytes (LP64) or
4 bytes. -/
structure Platform where
  systemIsBigEndian : Bool
  longIs8Bytes : Bool
  deriving DecidableEq, Repr

/-- A byte of a pixel buffer. -/
abbrev Byte := Fin 256

/-! ## The object -/

/-- `ImageIORegion`: index and size per axis. -/
structure ImageIORegion where
  index : List Nat
  size : List Nat
  deriving DecidableEq, Repr

/-- The data members of `FDFImageIO` (those of the base class included) that the
source file reads or writes. -/
structure FDFImageIOData (R : Type) where
  m_FileName : String
  m_FileType : IOFileEnum
  m_SpatialRank : String
  m_NumberOfDimensions : Nat
  m_Dimensions : List Nat
  m_Direction : List (List R)
  m_Origin : List R
  m_Spacing : List R
  m_Span : List R
  m_Roi : List R
  m_Location : List R
  m_ByteOrder : IOByteOrderEnum
  m_PixelType : IOPixelEnum
  m_ComponentType : IOComponentEnum
  m_IORegion : ImageIORegion
  m_Bits : Int
  m_Checksum : Int
  m_InputPosition : Int
  deriving DecidableEq, Repr

/-- The vectors of the base class all have `m_NumberOfDimensions` entries. -/
def FDFImageIOData.WellFormed {R : Type} (self : FDFImageIOData R) : Prop :=
  self.m_Dimensions.length = self.m_NumberOfDimensions ∧
  self.m_Direction.length = self.m_NumberOfDimensions ∧
  self.m_Origin.length = self.m_NumberOfDimensions ∧
  self.m_Spacing.length = self.m_NumberOfDimensions

/-- The object as the constructors leave it: no file name, no axis, byte order and
component type not yet known. -/
def FDFImageIOData.constructed (R : Type) : FDFImageIOData R :=
  { m_FileName := ""
    m_FileType := .TypeNotApplicable
    m_SpatialRank := ""
    m_NumberOfDimensions := 0
    m_Dimensions := []
    m_Direction := []
    m_Origin := []
    m_Spacing := []
    m_Span := []
    m_Roi := []
    m_Location := []
    m_ByteOrder := .OrderNotApplicable
    m_PixelType := .SCALAR
    m_ComponentType := .UNKNOWNCOMPONENTTYPE
    m_IORegion := { index := [], size := [] }
    m_Bits := 0
    m_Checksum := 0
    m_InputPosition := 0 }

/-! ## Files -/

/-- What an open file offers the reader: the successive results of
`getline(inFile, line, '\n')` and its raw bytes. -/
structure FileData where
  lines : List String
  bytes : List Byte
  deriving DecidableEq, Repr

/-- The file system: `none` when `std::ifstream::open` fails on the name. -/
abbrev FileSystem := String → Option FileData

/-! ## `CanReadFile` -/

/-- `std::string::npos`. -/
def npos : Nat := 2 ^ 64 - 1

/-- The loop of `std::string::rfind`: try position `pos`, then `pos - 1`, down to
`0`; `npos` when `pat` starts at none of them. -/
def rfindFrom (s pat : List Char) : Nat → Nat
  | 0 => if pat.isPrefixOf s then 0 else npos
  | pos + 1 =>
    if pat.isPrefixOf (s.drop (pos + 1)) then pos + 1 else rfindFrom s pat pos

/-- `s.rfind(pat)`: the last position at which `pat` occurs in `s`, or `npos`. -/
def rfind (s pat : String) : Nat :=
  if pat.length ≤ s.length then rfindFrom s.data pat.data (s.length - pat.length)
  else npos

/-- `filename.length() - 4` in `size_type` arithmetic. -/
def lengthMinus4 (filename : String) : Nat :=
  (filename.length + 2 ^ 64 - 4) % 2 ^ 64

/-- The value of `extensionFound` after the two tests of `CanReadFile`. -/
def extensionFound (filename : String) : Bool :=
  let found := false
  let FDFPos := rfind filename ".fdf"
  let found := if FDFPos ≠ npos ∧ FDFPos = lengthMinus4 filename then true else found
  let FDFPos := rfind filename ".FDF"
  let found := if FDFPos ≠ npos ∧ FDFPos = lengthMinus4 filename then true else found
  found

/-- What a call of `CanReadFile` leaves behind: the object, the names on which
`open` was called, and the value returned or the exception thrown. -/
structure CanReadFileResult (R : Type) where
  self : FDFImageIOData R
  opened : List String
  result : Except Error Bool

/-- `FDFImageIO::CanReadFile`. -/
def CanReadFile {R : Type} (fs : FileSystem) (self : FDFImageIOData R) (file : String) :
    CanReadFileResult R :=
  let self := { self with m_FileName := file }
  let filename := file
  if filename = "" then
    { self := self, opened := [], result := .ok false }
  else if ¬ extensionFound filename = true then
    { self := self, opened := [], result := .ok false }
  else
    match fs self.m_FileName with
    | none =>
      { self := self, opened := [self.m_FileName],
        result := .error (.cannotBeRead self.m_FileName) }
    | some _ =>
      { self := self, opened := [self.m_FileName], result := .ok true }

/-- The path ends with the characters of `ext`. -/
def endsWith (p ext : String) : Prop := List.IsSuffix ext.data p.data

instance (p ext : String) : Decidable (endsWith p ext) := by
  unfold endsWith; infer_instance

/-! ## Collaborators outside this source file -/

/-- A `vnl_matrix<double>`: its shape and its entries by (row, column). -/
structure vnl_matrix (R : Type) where
  rows : Nat
  cols : Nat
  data : Nat → Nat → R

/-- `M(r, c) = val`. -/
def vnl_matrix.put {R : Type} (M : vnl_matrix R) (r c : Nat) (val : R) : vnl_matrix R :=
  { M with data := fun r1 c1 => if r1 = r ∧ c1 = c then val else M.data r1 c1 }

/-- The helpers of `itkFDFCommonImageIO.h`, the conversion of a parsed number to
an axis size and `vnl_determinant`.  None of them is in the source file; the
reader is parametric in them. -/
structure Common (R : Type) where
  /-- `ParseLine(line)`. -/
  ParseLine : String → String
  /-- `Tokenize(line, tokens, " ;")`: the tokens appended to the empty vector. -/
  Tokenize : String → List String
  /-- `StringToVector(value, values)`: the contents of `values` after the call, from
  the text `value` and the contents of `values` before the call. -/
  StringToVector : String → List R → List R
  /-- `ConvertFromString(value, x)`: `x` after the call, from the text `value` and
  `x` before the call. -/
  ConvertFromString : String → Int → Int
  /-- The implicit conversion of a `float` to `SizeValueType`. -/
  toSizeValue : R → Nat
  /-- `vnl_determinant(M)`. -/
  vnl_determinant : vnl_matrix R → R

section Model

variable {R : Type} [Mul R] [Div R] [NatCast R] [BEq R]

/-- `v[i]` on a `std::vector`. -/
def vectorAt {α : Type} (v : List α) (i : Nat) : Except Error α :=
  match v[i]? with
  | some x => .ok x
  | none => .error .outOfRange

/-- `v.resize(n)`: the first `n` entries, new entries value-initialised to `pad`. -/
def resize {α : Type} (v : List α) (n : Nat) (pad : α) : List α :=
  v.take n ++ List.replicate (n - v.length) pad

/-! ### Members of the base class `ImageIOBase`

The setters with an index write one entry of a vector; the callers in this file
only use indices below the length of the vector. -/

/-- Axis `i` of the identity: `axis[j] = (i == j) ? 1.0 : 0.0`. -/
def identityAxis (numDim i : Nat) : List R :=
  (List.range numDim).map fun j => if i = j then ((1 : Nat) : R) else ((0 : Nat) : R)

/-- `ImageIOBase::SetNumberOfDimensions(dim)`: when `dim` differs from the current
number, the vectors are resized to `dim` entries, `m_Dimensions` keeps its leading
entries, and direction, origin and spacing restart at the identity, 0 and 1. -/
def SetNumberOfDimensions (self : FDFImageIOData R) (dim : Nat) : FDFImageIOData R :=
  if dim ≠ self.m_NumberOfDimensions then
    { self with
      m_NumberOfDimensions := dim
      m_Dimensions := resize self.m_Dimensions dim 0
      m_Direction := (List.range dim).map fun i => identityAxis dim i
      m_Origin := List.replicate dim ((0 : Nat) : R)
      m_Spacing := List.replicate dim ((1 : Nat) : R) }
  else self

/-- `ImageIOBase::SetDimensions(i, dim)`. -/
def SetDimensions (self : FDFImageIOData R) (i dim : Nat) : FDFImageIOData R :=
  { self with m_Dimensions := self.m_Dimensions.set i dim }

/-- `ImageIOBase::SetDirection(i, direction)`. -/
def SetDirection (self : FDFImageIOData R) (i : Nat) (direction : List R) : FDFImageIOData R :=
  { self with m_Direction := self.m_Direction.set i direction }

/-- `ImageIOBase::SetOrigin(i, origin)`. -/
def SetOrigin (self : FDFImageIOData R) (i : Nat) (origin : R) : FDFImageIOData R :=
  { self with m_Origin := self.m_Origin.set i origin }

/-- `ImageIOBase::SetSpacing(i, spacing)`. -/
def SetSpacing (self : FDFImageIOData R) (i : Nat) (spacing : R) : FDFImageIOData R :=
  { self with m_Spacing := self.m_Spacing.set i spacing }

/-- `ImageIOBase::GetDimensions(i)`. -/
def GetDimensions (self : FDFImageIOData R) (i : Nat) : Except Error Nat :=
  vectorAt self.m_Dimensions i

/-- `ImageIOBase::GetComponentSize()`: `sizeof` of the component type. -/
def GetComponentSize (P : Platform) : IOComponentEnum → Except Error Nat
  | .UCHAR => .ok 1
  | .CHAR => .ok 1
  | .USHORT => .ok 2
  | .SHORT => .ok 2
  | .UINT => .ok 4
  | .INT => .ok 4
  | .ULONG => .ok (if P.longIs8Bytes then 8 else 4)
  | .LONG => .ok (if P.longIs8Bytes then 8 else 4)
  | .FLOAT => .ok 4
  | .DOUBLE => .ok 8
  | .UNKNOWNCOMPONENTTYPE => .error .unknownComponentSize

/-- `ImageIOBase::GetImageSizeInPixels()`: the product of `m_Dimensions[i]` over
the axes `i < m_NumberOfDimensions`. -/
def GetImageSizeInPixels (self : FDFImageIOData R) : Nat :=
  (self.m_Dimensions.take self.m_NumberOfDimensions).prod

/-- `ImageIOBase::GetImageSizeInBytes()`: pixels times components per pixel (one,
the reader never changes it) times the component size. -/
def GetImageSizeInBytes (P : Platform) (self : FDFImageIOData R) : Except Error Nat := do
  let componentSize ← GetComponentSize P self.m_ComponentType
  pure (GetImageSizeInPixels self * componentSize)

/-! ### The branches of the field dispatch -/

/-- The body of `if( name == "matrix" )`. -/
def matrixField (C : Common R) (value : String) (self : FDFImageIOData R) : FDFImageIOData R :=
  let dimensions := C.StringToVector value []
  let self :=
    if self.m_NumberOfDimensions < dimensions.length then
      SetNumberOfDimensions self dimensions.length
    else self
  let self := dimensions.enum.foldl
    (fun self ix => SetDimensions self ix.1 (C.toSizeValue ix.2)) self
  let size := dimensions.map C.toSizeValue
  let index := dimensions.map fun _ => 0
  { self with m_IORegion := { index := index, size := size } }

/-- One pass of the inner loop of the orientation branch:
`val = orientation[i * numDim + j]; testDirections(j,i) = val;
componentVector.push_back(val)`. -/
def orientationInner (orientation : List R) (numDim i : Nat)
    (st : vnl_matrix R × List R) (j : Nat) : Except Error (vnl_matrix R × List R) := do
  let val ← vectorAt orientation (i * numDim + j)
  pure (st.1.put j i val, st.2 ++ [val])

/-- One pass of the outer loop of the orientation branch: the inner loop from an
empty `componentVector`, then `SetDirection(i, componentVector)`. -/
def orientationOuter (orientation : List R) (numDim : Nat)
    (st : FDFImageIOData R × vnl_matrix R) (i : Nat) :
    Except Error (FDFImageIOData R × vnl_matrix R) := do
  let inner ← (List.range numDim).foldlM (orientationInner orientation numDim i) (st.2, [])
  pure (SetDirection st.1 i inner.2, inner.1)

/-- The loop that sets the directions to the identity. -/
def setIdentityDirections (numDim : Nat) (self : FDFImageIOData R) : FDFImageIOData R :=
  (List.range numDim).foldl
    (fun self i =>
      let componentVector := (List.range numDim).foldl
        (fun (cv : List R) j => cv ++ [if i = j then ((1 : Nat) : R) else ((0 : Nat) : R)]) []
      SetDirection self i componentVector)
    self

/-- The body of `if( name == "orientation" )`. -/
def orientationField (C : Common R) (value : String) (self : FDFImageIOData R) :
    Except Error (FDFImageIOData R) := do
  let numDim := self.m_NumberOfDimensions
  let orientation := C.StringToVector value []
  let testDirections : vnl_matrix R :=
    { rows := numDim, cols := numDim, data := fun _ _ => ((0 : Nat) : R) }
  let st ← (List.range numDim).foldlM (orientationOuter orientation numDim)
    (self, testDirections)
  if C.vnl_determinant st.2 == ((0 : Nat) : R) then
    pure (setIdentityDirections numDim st.1)
  else
    pure st.1

/-- The body of `if( name == "origin" )`. -/
def originField (C : Common R) (value : String) (self : FDFImageIOData R) : FDFImageIOData R :=
  let origin := C.StringToVector value []
  let self :=
    if self.m_NumberOfDimensions < origin.length then
      SetNumberOfDimensions self origin.length
    else self
  origin.enum.foldl (fun self ix => SetOrigin self ix.1 (ix.2 / ((10 : Nat) : R))) self

/-- The body of `if( name == "bigendian" )`. -/
def bigendianField (value : String) (self : FDFImageIOData R) : FDFImageIOData R :=
  if value = "0" then { self with m_ByteOrder := .LittleEndian }
  else { self with m_ByteOrder := .BigEndian }

/-- The body of `if( name == "storage" )`. -/
def storageField (value : String) (self : FDFImageIOData R) : Except Error (FDFImageIOData R) :=
  let self := { self with m_PixelType := .SCALAR }
  if value = "double" then .ok { self with m_ComponentType := .DOUBLE }
  else if value = "float" then .ok { self with m_ComponentType := .FLOAT }
  else if value = "long" then .ok { self with m_ComponentType := .LONG }
  else if value = "unsigned long" then .ok { self with m_ComponentType := .ULONG }
  else if value = "int" then .ok { self with m_ComponentType := .INT }
  else if value = "unsigned int" then .ok { self with m_ComponentType := .UINT }
  else if value = "short" then .ok { self with m_ComponentType := .SHORT }
  else if value = "unsigned short" then .ok { self with m_ComponentType := .USHORT }
  else if value = "char" then .ok { self with m_ComponentType := .CHAR }
  else if value = "unsigned char" then .ok { self with m_ComponentType := .UCHAR }
  else .error (.unknownComponentType value)

/-- The body of the header loop after tokenizing: `if( tokens.size() == 4 )` with
its eleven tests of `name = tokens[1]` in the order of the source, `value =
tokens[3]`. -/
def headerField (C : Common R) (tokens : List String) (self : FDFImageIOData R) :
    Except Error (FDFImageIOData R) :=
  match tokens with
  | [_type, name, _, value] => do
    let self := if name = "spatial_rank" then { self with m_SpatialRank := value } else self
    let self := if name = "matrix" then matrixField C value self else self
    let self ← if name = "orientation" then orientationField C value self else pure self
    let self :=
      if name = "span" then { self with m_Span := C.StringToVector value self.m_Span }
      else self
    let self := if name = "origin" then originField C value self else self
    let self :=
      if name = "roi" then { self with m_Roi := C.StringToVector value self.m_Roi }
      else self
    let self :=
      if name = "location" then
        { self with m_Location := C.StringToVector value self.m_Location }
      else self
    let self := if name = "bigendian" then bigendianField value self else self
    let self ← if name = "storage" then storageField value self else pure self
    let self :=
      if name = "bits" then { self with m_Bits := C.ConvertFromString value self.m_Bits } else self
    let self :=
      if name = "checksum" then
        { self with m_Checksum := C.ConvertFromString value self.m_Checksum }
      else self
    pure self
  | _ => pure self

/-- The `while( getline( inFile, line, '\n' ) )` loop over the lines of the file:
it stops at the first empty line (`line == "\0"` compares with the empty string)
or at the end of the file. -/
def headerLoop (C : Common R) : List String → FDFImageIOData R → Except Error (FDFImageIOData R)
  | [], self => pure self
  | line :: rest, self =>
    if line = "" then pure self
    else do
      let self ← headerField C (C.Tokenize (C.ParseLine line)) self
      headerLoop C rest self

/-- One pass of the spacing loop:
`SetSpacing(i, (m_Roi[i] * 10) / GetDimensions(i))`. -/
def spacingStep (self : FDFImageIOData R) (i : Nat) : Except Error (FDFImageIOData R) := do
  let roi ← vectorAt self.m_Roi i
  let dim ← GetDimensions self i
  pure (SetSpacing self i (roi * ((10 : Nat) : R) / (dim : R)))

/-- The end of `ReadImageInformation`, after the header loop: the payload offset
from the file size, then the spacing loop. -/
def finishHeader (P : Platform) (fileSize : Nat) (self : FDFImageIOData R) :
    Except Error (FDFImageIOData R) := do
  let imageSizeInBytes ← GetImageSizeInBytes P self
  let self := { self with m_InputPosition := (fileSize : Int) - (imageSizeInBytes : Int) }
  (List.range self.m_NumberOfDimensions).foldlM spacingStep self

/-- `FDFImageIO::ReadImageInformation`. -/
def ReadImageInformation (C : Common R) (P : Platform) (fs : FileSystem)
    (self : FDFImageIOData R) : Except Error (FDFImageIOData R) :=
  let probe := CanReadFile fs self self.m_FileName
  match probe.result with
  | .error e => .error e
  | .ok false => .error .raised
  | .ok true =>
    match fs probe.self.m_FileName with
    | none => .error .raised
    | some inFile => do
      let self := { probe.self with m_FileType := .Binary }
      let self ← headerLoop C inFile.lines self
      finishHeader P inFile.bytes.length self

end Model

/-! ## `SwapBytesIfNecessary` -/

/-- `ByteSwapper<T>::Swap2Range`, `Swap4Range`, `Swap8Range` for elements of `w`
bytes: the bytes of each of the first `num` elements of the buffer are reversed
in place. -/
def SwapRange (w : Nat) : Nat → List Byte → Except Error (List Byte)
  | 0, p => .ok p
  | num + 1, p =>
    if p.length < w then .error .outOfRange
    else do
      let rest ← SwapRange w num (p.drop w)
      pure ((p.take w).reverse ++ rest)

/-- The `switch( sizeof(T) )` of `ByteSwapper<T>`. -/
def swapBySize (w : Nat) (p : List Byte) (num : Nat) : Except Error (List Byte) :=
  match w with
  | 1 => .ok p
  | 2 => SwapRange 2 num p
  | 4 => SwapRange 4 num p
  | 8 => SwapRange 8 num p
  | _ => .error .byteSwapperError

/-- `ByteSwapper<T>::SwapRangeFromSystemToBigEndian(p, num)` with `sizeof(T) = w`:
nothing on a big-endian system. -/
def SwapRangeFromSystemToBigEndian (P : Platform) (w : Nat) (p : List Byte) (num : Nat) :
    Except Error (List Byte) :=
  if P.systemIsBigEndian then .ok p else swapBySize w p num

/-- `ByteSwapper<T>::SwapRangeFromSystemToLittleEndian(p, num)` with
`sizeof(T) = w`: nothing on a little-endian system. -/
def SwapRangeFromSystemToLittleEndian (P : Platform) (w : Nat) (p : List Byte)
    (num : Nat) : Except Error (List Byte) :=
  if P.systemIsBigEndian then swapBySize w p num else .ok p

/-- The two tests of `m_ByteOrder` that every `case` of `SwapBytesIfNecessary`
makes, for `T` of `w` bytes. -/
def swapCase (P : Platform) (byteOrder : IOByteOrderEnum) (w : Nat) (buffer : List Byte)
    (numberOfPixels : Nat) : Except Error (List Byte) :=
  if byteOrder = .LittleEndian then
    SwapRangeFromSystemToLittleEndian P w buffer numberOfPixels
  else if byteOrder = .BigEndian then
    SwapRangeFromSystemToBigEndian P w buffer numberOfPixels
  else .ok buffer

/-- The size of `long` on the platform. -/
def sizeofLong (P : Platform) : Nat := if P.longIs8Bytes then 8 else 4

/-- `FDFImageIO::SwapBytesIfNecessary(buffer, numberOfPixels)`: the `switch` on the
component type, its cases in the order of the source. -/
def SwapBytesIfNecessary (P : Platform) (componentType : IOComponentEnum)
    (byteOrder : IOByteOrderEnum) (buffer : List Byte) (numberOfPixels : Nat) :
    Except Error (List Byte) :=
  match componentType with
  | .CHAR => swapCase P byteOrder 1 buffer numberOfPixels
  | .FLOAT => swapCase P byteOrder 4 buffer numberOfPixels
  | .UCHAR => swapCase P byteOrder 1 buffer numberOfPixels
  | .SHORT => swapCase P byteOrder 2 buffer numberOfPixels
  | .USHORT => swapCase P byteOrder 2 buffer numberOfPixels
  | .INT => swapCase P byteOrder 4 buffer numberOfPixels
  | .UINT => swapCase P byteOrder 4 buffer numberOfPixels
  | .LONG => swapCase P byteOrder (sizeofLong P) buffer numberOfPixels
  | .ULONG => swapCase P byteOrder (sizeofLong P) buffer numberOfPixels
  | _ => .error .pixelTypeUnknown

/-! ## `Read` and the write members -/

/-- What the stream library and the device decide during a call of `Read`. -/
structure StreamBehaviour where
  /-- Whether `seekg` to a position after the last byte of the file sets `failbit`
  (on POSIX systems it does not). -/
  seekPastEndFails : Bool
  /-- Whether the device fails while `read` transfers bytes, so that the stream
  sets `badbit`. -/
  readGoesBad : Bool
  deriving DecidableEq, Repr

/-- The test `!inFile` after `inFile.seekg(pos)` on a file of `size` bytes: the
stream refuses a negative position. -/
def seekgFails (B : StreamBehaviour) (size : Nat) (pos : Int) : Bool :=
  decide (pos < 0) || (decide ((size : Int) < pos) && B.seekPastEndFails)

/-- The bytes in the buffer after `inFile.read(p, n)` at the position `pos`: the
bytes of the file from `pos` on, at most `n` of them, are copied to the start of
the buffer.  When fewer than `n` bytes are left the stream sets `eofbit` and
`failbit`, not `badbit`. -/
def streamRead (bytes : List Byte) (pos n : Nat) (buffer : List Byte) :
    Except Error (List Byte) :=
  let data := (bytes.drop pos).take n
  if buffer.length < data.length then .error .outOfRange
  else .ok (data ++ buffer.drop data.length)

/-- `FDFImageIO::Read(buffer)`: the contents of the buffer after the call. -/
def Read {R : Type} (P : Platform) (B : StreamBehaviour) (fs : FileSystem)
    (self : FDFImageIOData R) (buffer : List Byte) : Except Error (List Byte) :=
  match fs self.m_FileName with
  | none => .error .raised
  | some inFile =>
    if seekgFails B inFile.bytes.length self.m_InputPosition then .error .raised
    else do
      let imageSizeInBytes ← GetImageSizeInBytes P self
      let buffer ← streamRead inFile.bytes self.m_InputPosition.toNat imageSizeInBytes buffer
      let success := !B.readGoesBad
      if !success then .error .errorReadingImageData
      else
        SwapBytesIfNecessary P self.m_ComponentType self.m_ByteOrder buffer
          (GetImageSizeInPixels self)

/-- `FDFImageIO::CanWriteFile(name)`. -/
def CanWriteFile {R : Type} (_self : FDFImageIOData R) (_name : String) : Bool :=
  false

/-- `FDFImageIO::WriteImageInformation()`: the object and the file system after
the call. -/
def WriteImageInformation {R : Type} (fs : FileSystem) (self : FDFImageIOData R) :
    Except Error (FDFImageIOData R × FileSystem) :=
  .ok (self, fs)

/-- `FDFImageIO::Write(buffer)`: the object and the file system after the call. -/
def Write {R : Type} (fs : FileSystem) (self : FDFImageIOData R) (_buffer : List Byte) :
    Except Error (FDFImageIOData R × FileSystem) :=
  .ok (self, fs)

/-! ## Vocabulary of the statements -/

/-- The ten keywords of the `storage` field. -/
def storageKeywords : List String :=
  ["double", "float", "long", "unsigned long", "int", "unsigned int", "short",
    "unsigned short", "char", "unsigned char"]

/-- The eleven names of the dispatch table. -/
def fieldNames : List String :=
  ["spatial_rank", "matrix", "orientation", "span", "origin", "roi", "location",
    "bigendian", "storage", "bits", "checksum"]

/-- The axis `i` that an orientation list declares for `numDim` axes: its values
`i * numDim .. i * numDim + numDim - 1`. -/
def declaredAxis {R : Type} (orientation : List R) (numDim i : Nat) : List R :=
  (orientation.drop (i * numDim)).take numDim

/-- The directions an orientation list declares: axis by axis. -/
def declaredDirections {R : Type} (orientation : List R) (numDim : Nat) : List (List R) :=
  (List.range numDim).map (declaredAxis orientation numDim)

/-- The directions of the identity. -/
def identityDirections {R : Type} [NatCast R] (numDim : Nat) : List (List R) :=
  (List.range numDim).map (identityAxis numDim)

/-- The matrix `M` after the orientation loops have passed the columns before
`k` and the rows before `m` of column `k`: the entry in row `r` of a column `c`
already passed is `orientation[c * numDim + r]`. -/
def columnsFilled {R : Type} [NatCast R] (M : vnl_matrix R) (orientation : List R)
    (numDim k m : Nat) : vnl_matrix R :=
  { M with
    data := fun r c =>
      if (c < k ∧ r < numDim) ∨ (c = k ∧ r < m) then
        orientation.getD (c * numDim + r) ((0 : Nat) : R)
      else M.data r c }

/-- The `numDim` by `numDim` matrix an orientation list declares: axis `c` is its
column `c`. -/
def declaredMatrix {R : Type} [NatCast R] (orientation : List R) (numDim : Nat) :
    vnl_matrix R :=
  { rows := numDim
    cols := numDim
    data := fun r c =>
      if c < numDim ∧ r < numDim then orientation.getD (c * numDim + r) ((0 : Nat) : R)
      else ((0 : Nat) : R) }

/-- The determinant of the leading `n` by `n` block of entries, by expansion along
the first row. -/
def laplace : Nat → (Nat → Nat → ℚ) → ℚ
  | 0, _ => 1
  | n + 1, M =>
    ((List.range (n + 1)).map fun c =>
      (-1) ^ c * M 0 c * laplace n (fun r c1 => M (r + 1) (if c1 < c then c1 else c1 + 1))).sum

/-- Collaborators for evaluating examples with exact rational numbers: the
determinant is the mathematical one, and the list parser knows the one list of
the examples. -/
def rationalCommon : Common ℚ :=
  { ParseLine := fun line => line
    Tokenize := fun line => line.splitOn " "
    StringToVector := fun value values =>
      values ++ (if value = "{1,0,0,1,0,0}" then [1, 0, 0, 1, 0, 0] else [])
    ConvertFromString := fun value x => value.toInt?.getD x
    toSizeValue := fun x => x.floor.toNat
    vnl_determinant := fun M => laplace M.rows M.data }

/-- The byte order of the platform. -/
def nativeOrder (P : Platform) : IOByteOrderEnum :=
  if P.systemIsBigEndian then .BigEndian else .LittleEndian

/-- An object at the end of a header that declared two axes of 64 pixels, a
region of interest of 10 by 10, little-endian `float` pixels. -/
def header64 : FDFImageIOData ℚ :=
  { FDFImageIOData.constructed ℚ with
    m_NumberOfDimensions := 2
    m_Dimensions := [64, 64]
    m_Direction := [[1, 0], [0, 1]]
    m_Origin := [0, 0]
    m_Spacing := [1, 1]
    m_Roi := [10, 10]
    m_ByteOrder := .LittleEndian
    m_ComponentType := .FLOAT }

/-- An object at the end of a header that declared two axes of 2 pixels of type
`unsigned char`. -/
def header2x2 : FDFImageIOData ℚ :=
  { FDFImageIOData.constructed ℚ with
    m_NumberOfDimensions := 2
    m_Dimensions := [2, 2]
    m_Direction := [[1, 0], [0, 1]]
    m_Origin := [0, 0]
    m_Spacing := [1, 1]
    m_Roi := [10, 10]
    m_ByteOrder := .BigEndian
    m_ComponentType := .UCHAR }

/-- The three names of the dispatch table whose branches read or change the
number of dimensions. -/
def geometryNames : List String := ["matrix", "orientation", "origin"]

/-- Two header lines interpreted one after the other. -/
def headerFieldTwice {R : Type} [Mul R] [Div R] [NatCast R] [BEq R] (C : Common R)
    (first second : List String) (self : FDFImageIOData R) : Except Error (FDFImageIOData R) :=
  headerField C first self >>= headerField C second

/-- The eight names of the dispatch table whose branches neither read nor change
the number of dimensions. -/
def simpleNames : List String :=
  ["spatial_rank", "span", "roi", "location", "bigendian", "storage", "bits", "checksum"]

/-- The tag of a storage keyword. -/
def storageTag (value : String) : IOComponentEnum :=
  if value = "double" then .DOUBLE
  else if value = "float" then .FLOAT
  else if value = "long" then .LONG
  else if value = "unsigned long" then .ULONG
  else if value = "int" then .INT
  else if value = "unsigned int" then .UINT
  else if value = "short" then .SHORT
  else if value = "unsigned short" then .USHORT
  else if value = "char" then .CHAR
  else if value = "unsigned char" then .UCHAR
  else .UNKNOWNCOMPONENTTYPE

/-- The error of a line with one of the eight names of `simpleNames`, if it has
one: only a storage line with an unknown keyword fails. -/
def simpleError (name value : String) : Option Error :=
  if name = "storage" ∧ value ∉ storageKeywords then some (.unknownComponentType value)
  else none

/-- What a line with one of the eight names of `simpleNames` does to the object
when it does not fail. -/
def simpleUpdate {R : Type} (C : Common R) (name value : String)
    (self : FDFImageIOData R) : FDFImageIOData R :=
  if name = "spatial_rank" then { self with m_SpatialRank := value }
  else if name = "span" then { self with m_Span := C.StringToVector value self.m_Span }
  else if name = "roi" then { self with m_Roi := C.StringToVector value self.m_Roi }
  else if name = "location" then
    { self with m_Location := C.StringToVector value self.m_Location }
  else if name = "bigendian" then
    { self with m_ByteOrder := if value = "0" then .LittleEndian else .BigEndian }
  else if name = "storage" then
    { self with m_PixelType := .SCALAR, m_ComponentType := storageTag value }
  else if name = "bits" then { self with m_Bits := C.ConvertFromString value self.m_Bits }
  else if name = "checksum" then
    { self with m_Checksum := C.ConvertFromString value self.m_Checksum }
  else self

/-- A change of the object that passes through the setters of the geometry: it
leaves the number of dimensions alone, and it can be made before or after a call
of a setter. -/
structure GeometryFrame {R : Type} [NatCast R] (u : FDFImageIOData R → FDFImageIOData R) :
    Prop where
  numberOfDimensions : ∀ s, (u s).m_NumberOfDimensions = s.m_NumberOfDimensions
  setNumberOfDimensions : ∀ s dim,
    SetNumberOfDimensions (u s) dim = u (SetNumberOfDimensions s dim)
  setDimensions : ∀ s i dim, SetDimensions (u s) i dim = u (SetDimensions s i dim)
  setDirection : ∀ s i direction, SetDirection (u s) i direction = u (SetDirection s i direction)
  setOrigin : ∀ s i origin, SetOrigin (u s) i origin = u (SetOrigin s i origin)
  setIORegion : ∀ s region, { u s with m_IORegion := region } = u { s with m_IORegion := region }

/-- The lists of the examples, by their text. -/
def exampleList (value : String) : List ℚ :=
  if value = "{2,2}" then [2, 2]
  else if value = "{2,2,2}" then [2, 2, 2]
  else if value = "{0,1,1,0}" then [0, 1, 1, 0]
  else if value = "{10,20}" then [10, 20]
  else []

/-- Collaborators for evaluating examples with exact rational numbers and the
lists of `exampleList`. -/
def exampleCommon : Common ℚ :=
  { rationalCommon with
    StringToVector := fun value values => values ++ exampleList value }

/-- The object of `header2x2` when its file is "scan.fdf" and the payload is
expected at the start of the file. -/
def header2x2AtStart : FDFImageIOData ℚ :=
  { header2x2 with m_FileName := "scan.fdf", m_InputPosition := 0 }

/-- A file system whose every file holds the two bytes 1, 2. -/
def twoByteFiles : FileSystem :=
  fun _ => some { lines := [], bytes := [1, 2] }

/-- An object at the end of a header whose first axis has size zero. -/
def headerZeroAxis : FDFImageIOData ℚ :=
  { header64 with m_Dimensions := [0, 64] }

/-- The object of `header2x2AtStart` after a header pass over a file of three
bytes: the payload of four bytes would start one byte before the file. -/
def header2x2Negative : FDFImageIOData ℚ :=
  { header2x2AtStart with m_InputPosition := -1 }

/-! ## Facts about `rfind` and `CanReadFile` -/

theorem rfindFrom_hit (s pat : List Char) (pos : Nat)
    (h : pat.isPrefixOf (s.drop pos) = true) : rfindFrom s pat pos = pos := by
  cases pos with
  | zero => simp at h; simp [rfindFrom, h]
  | succ n => simp [rfindFrom, h]

theorem rfindFrom_le_or_npos (s pat : List Char) (pos : Nat) :
    rfindFrom s pat pos ≤ pos ∨ rfindFrom s pat pos = npos := by
  induction pos with
  | zero => simp only [rfindFrom]; split <;> simp
  | succ n ih =>
    simp only [rfindFrom]; split
    · simp
    · rcases ih with h | h
      · left; omega
      · right; exact h

theorem rfindFrom_miss (s pat : List Char) (pos : Nat)
    (h : pat.isPrefixOf (s.drop pos) = false) :
    rfindFrom s pat pos < pos ∨ rfindFrom s pat pos = npos := by
  cases pos with
  | zero => simp at h; simp [rfindFrom, h]
  | succ n =>
    simp only [rfindFrom, h]
    rcases rfindFrom_le_or_npos s pat n with h1 | h1
    · left; simp; omega
    · right; simpa using h1

theorem isPrefixOf_drop_iff (s pat : List Char) (hle : pat.length ≤ s.length) :
    pat.isPrefixOf (s.drop (s.length - pat.length)) = true ↔ List.IsSuffix pat s := by
  rw [List.isPrefixOf_iff_prefix]
  constructor
  · intro h
    have hlen : (s.drop (s.length - pat.length)).length = pat.length := by
      simp; omega
    have : pat = s.drop (s.length - pat.length) := h.eq_of_length hlen.symm
    rw [this]; exact List.drop_suffix _ _
  · intro h
    obtain ⟨t, rfl⟩ := h
    simp

theorem rfindFrom_eq_iff (s pat : List Char) (hlen : s.length < 2 ^ 64)
    (hpos : 0 < pat.length) (hle : pat.length ≤ s.length) :
    rfindFrom s pat (s.length - pat.length) = s.length - pat.length ↔
      List.IsSuffix pat s := by
  rw [← isPrefixOf_drop_iff s pat hle]
  constructor
  · intro h
    by_contra hc
    rcases rfindFrom_miss s pat _ (Bool.eq_false_iff.mpr hc) with h1 | h1
    · omega
    · have hn : npos = 2 ^ 64 - 1 := rfl
      omega
  · intro h
    exact rfindFrom_hit _ _ _ h

theorem rfind_eq_iff (s pat : String) (hlen : s.length < 2 ^ 64)
    (hpos : 0 < pat.length) (hle : pat.length ≤ s.length) :
    rfind s pat = s.length - pat.length ↔ endsWith s pat := by
  unfold rfind endsWith
  rw [if_pos hle]
  exact rfindFrom_eq_iff s.data pat.data hlen hpos hle

theorem rfind_short (s pat : String) (h : s.length < pat.length) :
    rfind s pat = npos := by
  unfold rfind
  rw [if_neg (by omega)]

theorem not_endsWith_of_short (s pat : String) (h : s.length < pat.length) :
    ¬ endsWith s pat := by
  intro hs
  have := List.IsSuffix.length_le hs
  have hs : s.length = s.data.length := rfl
  have hp : pat.length = pat.data.length := rfl
  omega

/-- One extension test of `CanReadFile` succeeds exactly when the name ends with
the four characters of the extension. -/
theorem extension_test_iff (filename ext : String) (hext : ext.length = 4)
    (hlen : filename.length < 2 ^ 64) :
    (rfind filename ext ≠ npos ∧ rfind filename ext = lengthMinus4 filename) ↔
      endsWith filename ext := by
  have hn : npos = 2 ^ 64 - 1 := rfl
  by_cases hshort : filename.length < 4
  · have h1 := rfind_short filename ext (by omega)
    have h2 := not_endsWith_of_short filename ext (by omega)
    simp [h1, h2]
  · have hm : lengthMinus4 filename = filename.length - ext.length := by
      unfold lengthMinus4; omega
    rw [hm, ← rfind_eq_iff filename ext hlen (by omega) (by omega)]
    constructor
    · exact fun h => h.2
    · intro h
      exact ⟨by omega, h⟩

theorem extensionFound_iff (filename : String) (hlen : filename.length < 2 ^ 64) :
    extensionFound filename = true ↔
      endsWith filename ".fdf" ∨ endsWith filename ".FDF" := by
  have h1 := extension_test_iff filename ".fdf" (by decide) hlen
  have h2 := extension_test_iff filename ".FDF" (by decide) hlen
  rw [← h1, ← h2]
  unfold extensionFound
  by_cases a : (rfind filename ".fdf" ≠ npos ∧
      rfind filename ".fdf" = lengthMinus4 filename) <;>
    by_cases b : (rfind filename ".FDF" ≠ npos ∧
      rfind filename ".FDF" = lengthMinus4 filename) <;>
    simp [a, b]

theorem not_endsWith_empty (ext : String) (hext : ext.length = 4) : ¬ endsWith "" ext :=
  not_endsWith_of_short "" ext (by rw [hext]; decide)

/-- C1: `CanReadFile(p)` returns true exactly when `p` ends with the four
characters ".fdf" or ".FDF" and the file opens; when `p` ends with neither, it
returns false and `open` is called on no file. -/
theorem CanReadFile_true_iff {R : Type} (fs : FileSystem) (self : FDFImageIOData R)
    (file : String) (hlen : file.length < 2 ^ 64) :
    ((CanReadFile fs self file).result = .ok true ↔
      (endsWith file ".fdf" ∨ endsWith file ".FDF") ∧ (fs file).isSome = true) ∧
    (¬ (endsWith file ".fdf" ∨ endsWith file ".FDF") →
      (CanReadFile fs self file).result = .ok false ∧
        (CanReadFile fs self file).opened = []) := by
  have hx := extensionFound_iff file hlen
  by_cases hempty : file = ""
  · subst hempty
    have h1 := not_endsWith_empty ".fdf" (by decide)
    have h2 := not_endsWith_empty ".FDF" (by decide)
    simp [CanReadFile, h1, h2]
  · by_cases hext : extensionFound file = true
    · have hends := hx.mp hext
      cases hfs : fs file <;> simp [CanReadFile, hempty, hext, hends, hfs]
    · have hends : ¬ (endsWith file ".fdf" ∨ endsWith file ".FDF") := fun h => hext (hx.mpr h)
      simp [CanReadFile, hempty, hext, hends]

/-- C1 at the path "scan.FDF" of a file system in which every file opens. -/
theorem CanReadFile_true_iff_witness :
    (("scan.FDF" : String).length < 2 ^ 64) ∧
    (((CanReadFile (fun _ => some { lines := [], bytes := [] })
        (FDFImageIOData.constructed Int) "scan.FDF").result = .ok true ↔
      (endsWith "scan.FDF" ".fdf" ∨ endsWith "scan.FDF" ".FDF") ∧
        ((fun _ => some { lines := [], bytes := [] } : FileSystem) "scan.FDF").isSome = true) ∧
    (¬ (endsWith "scan.FDF" ".fdf" ∨ endsWith "scan.FDF" ".FDF") →
      (CanReadFile (fun _ => some { lines := [], bytes := [] })
        (FDFImageIOData.constructed Int) "scan.FDF").result = .ok false ∧
        (CanReadFile (fun _ => some { lines := [], bytes := [] })
          (FDFImageIOData.constructed Int) "scan.FDF").opened = [])) :=
  ⟨by decide, CanReadFile_true_iff _ _ "scan.FDF" (by decide)⟩

/-! ## The `storage` field -/

section Fields

variable {R : Type}

/-- A four-token line named "storage" runs the storage branch and no other. -/
theorem headerField_storage [Mul R] [Div R] [NatCast R] [BEq R] (C : Common R)
    (self : FDFImageIOData R) (type eq value : String) :
    headerField C [type, "storage", eq, value] self = storageField value self := by
  simp [headerField]

/-- The storage branch on one of the ten keywords. -/
theorem storageField_keyword (self : FDFImageIOData R) :
    storageField "double" self =
      .ok { self with m_PixelType := .SCALAR, m_ComponentType := .DOUBLE } ∧
    storageField "float" self =
      .ok { self with m_PixelType := .SCALAR, m_ComponentType := .FLOAT } ∧
    storageField "long" self =
      .ok { self with m_PixelType := .SCALAR, m_ComponentType := .LONG } ∧
    storageField "unsigned long" self =
      .ok { self with m_PixelType := .SCALAR, m_ComponentType := .ULONG } ∧
    storageField "int" self =
      .ok { self with m_PixelType := .SCALAR, m_ComponentType := .INT } ∧
    storageField "unsigned int" self =
      .ok { self with m_PixelType := .SCALAR, m_ComponentType := .UINT } ∧
    storageField "short" self =
      .ok { self with m_PixelType := .SCALAR, m_ComponentType := .SHORT } ∧
    storageField "unsigned short" self =
      .ok { self with m_PixelType := .SCALAR, m_ComponentType := .USHORT } ∧
    storageField "char" self =
      .ok { self with m_PixelType := .SCALAR, m_ComponentType := .CHAR } ∧
    storageField "unsigned char" self =
      .ok { self with m_PixelType := .SCALAR, m_ComponentType := .UCHAR } := by
  simp [storageField]

/-- The storage branch succeeds on each keyword. -/
theorem storageField_ok_of_mem (self : FDFImageIOData R) (value : String)
    (h : value ∈ storageKeywords) : ∃ self1, storageField value self = .ok self1 := by
  have k := storageField_keyword self
  simp only [storageKeywords, List.mem_cons, List.mem_singleton, List.not_mem_nil,
    or_false] at h
  rcases h with h | h | h | h | h | h | h | h | h | h <;> subst h
  · exact ⟨_, k.1⟩
  · exact ⟨_, k.2.1⟩
  · exact ⟨_, k.2.2.1⟩
  · exact ⟨_, k.2.2.2.1⟩
  · exact ⟨_, k.2.2.2.2.1⟩
  · exact ⟨_, k.2.2.2.2.2.1⟩
  · exact ⟨_, k.2.2.2.2.2.2.1⟩
  · exact ⟨_, k.2.2.2.2.2.2.2.1⟩
  · exact ⟨_, k.2.2.2.2.2.2.2.2.1⟩
  · exact ⟨_, k.2.2.2.2.2.2.2.2.2⟩

/-- The storage branch throws on every other value. -/
theorem storageField_error_of_not_mem (self : FDFImageIOData R) (value : String)
    (h : value ∉ storageKeywords) :
    storageField value self = .error (.unknownComponentType value) := by
  simp only [storageKeywords, List.mem_cons, List.mem_singleton, List.not_mem_nil,
    or_false, not_or] at h
  obtain ⟨h1, h2, h3, h4, h5, h6, h7, h8, h9, h10⟩ := h
  simp [storageField, h1, h2, h3, h4, h5, h6, h7, h8, h9, h10]

/-- C2: on a four-token line named "storage", the field dispatch fails with the
unknown-component-type error exactly when the value token is none of the ten
keywords; in that case no object, hence no component type, is produced. -/
theorem storage_unknown_iff [Mul R] [Div R] [NatCast R] [BEq R] (C : Common R)
    (self : FDFImageIOData R) (type eq value : String) :
    (headerField C [type, "storage", eq, value] self = .error (.unknownComponentType value) ↔
      value ∉ storageKeywords) ∧
    (value ∉ storageKeywords →
      ∀ self1, headerField C [type, "storage", eq, value] self ≠ .ok self1) := by
  rw [headerField_storage]
  refine ⟨⟨fun h hmem => ?_, storageField_error_of_not_mem self value⟩,
    fun hv self1 hok => ?_⟩
  · obtain ⟨self1, h1⟩ := storageField_ok_of_mem self value hmem
    rw [h1] at h
    exact absurd h (by simp)
  · rw [storageField_error_of_not_mem self value hv] at hok
    exact absurd hok (by simp)

/-- C3: a four-token "storage" line with one of the ten keywords sets the
component type to the matching tag (and the pixel type to scalar), and changes
nothing else. -/
theorem storage_keyword_sets_componentType [Mul R] [Div R] [NatCast R] [BEq R]
    (C : Common R) (self : FDFImageIOData R) (type eq : String) :
    headerField C [type, "storage", eq, "double"] self =
      .ok { self with m_PixelType := .SCALAR, m_ComponentType := .DOUBLE } ∧
    headerField C [type, "storage", eq, "float"] self =
      .ok { self with m_PixelType := .SCALAR, m_ComponentType := .FLOAT } ∧
    headerField C [type, "storage", eq, "long"] self =
      .ok { self with m_PixelType := .SCALAR, m_ComponentType := .LONG } ∧
    headerField C [type, "storage", eq, "unsigned long"] self =
      .ok { self with m_PixelType := .SCALAR, m_ComponentType := .ULONG } ∧
    headerField C [type, "storage", eq, "int"] self =
      .ok { self with m_PixelType := .SCALAR, m_ComponentType := .INT } ∧
    headerField C [type, "storage", eq, "unsigned int"] self =
      .ok { self with m_PixelType := .SCALAR, m_ComponentType := .UINT } ∧
    headerField C [type, "storage", eq, "short"] self =
      .ok { self with m_PixelType := .SCALAR, m_ComponentType := .SHORT } ∧
    headerField C [type, "storage", eq, "unsigned short"] self =
      .ok { self with m_PixelType := .SCALAR, m_ComponentType := .USHORT } ∧
    headerField C [type, "storage", eq, "char"] self =
      .ok { self with m_PixelType := .SCALAR, m_ComponentType := .CHAR } ∧
    headerField C [type, "storage", eq, "unsigned char"] self =
      .ok { self with m_PixelType := .SCALAR, m_ComponentType := .UCHAR } := by
  simp only [headerField_storage]
  exact storageField_keyword self

/-- C4: the storage field accepts "double", and `SwapBytesIfNecessary` then
throws "Pixel Type Unknown" for the component type it stored, whatever the byte
orders, the buffer and the number of pixels. -/
theorem SwapBytesIfNecessary_double_raises [Mul R] [Div R] [NatCast R] [BEq R]
    (C : Common R) (self : FDFImageIOData R) (type eq : String) (P : Platform)
    (byteOrder : IOByteOrderEnum) (buffer : List Byte) (numberOfPixels : Nat) :
    ∃ self1, headerField C [type, "storage", eq, "double"] self = .ok self1 ∧
      self1.m_ComponentType = .DOUBLE ∧
      SwapBytesIfNecessary P self1.m_ComponentType byteOrder buffer numberOfPixels =
        .error .pixelTypeUnknown :=
  ⟨_, (headerField_storage C self type eq "double").trans (storageField_keyword self).1,
    rfl, rfl⟩

end Fields

/-! ## Payload offset and spacing -/

section Finish

variable {R : Type}

theorem vectorAt_of_lt {α : Type} (v : List α) (i : Nat) (h : i < v.length) :
    vectorAt v i = .ok v[i] := by
  simp [vectorAt, List.getElem?_eq_getElem h]

/-- Writing `f i` at the positions `0 .. k-1` one after the other. -/
theorem foldl_set_range {α : Type} (f : Nat → α) (k : Nat) (l : List α)
    (hk : k ≤ l.length) :
    (List.range k).foldl (fun acc i => acc.set i (f i)) l =
      (List.range k).map f ++ l.drop k := by
  induction k with
  | zero => simp
  | succ k ih =>
    rw [List.range_succ, List.foldl_append, ih (by omega)]
    simp only [List.foldl_cons, List.foldl_nil, List.map_append, List.map_cons, List.map_nil]
    rw [List.set_append_right _ _ (by simp)]
    simp only [List.length_map, List.length_range, Nat.sub_self, List.append_assoc,
      List.singleton_append]
    rw [List.drop_eq_getElem_cons (by omega : k < l.length)]
    rfl

theorem zipWith_take_succ {α β γ : Type} (f : α → β → γ) (a : List α) (b : List β)
    (k : Nat) (ha : k < a.length) (hb : k < b.length) :
    List.zipWith f (a.take (k + 1)) (b.take (k + 1)) =
      List.zipWith f (a.take k) (b.take k) ++ [f a[k] b[k]] := by
  rw [List.take_succ, List.take_succ, List.getElem?_eq_getElem ha,
    List.getElem?_eq_getElem hb]
  rw [List.zipWith_append _ _ _ _ _ (by simp; omega)]
  rfl

theorem zipWith_take_set {α β γ : Type} (f : α → β → γ) (a : List α) (b : List β)
    (sp : List γ) (k : Nat) (ha : k < a.length) (hb : k < b.length) (hs : k < sp.length) :
    (List.zipWith f (a.take k) (b.take k) ++ sp.drop k).set k (f a[k] b[k]) =
      List.zipWith f (a.take (k + 1)) (b.take (k + 1)) ++ sp.drop (k + 1) := by
  have hlen : (List.zipWith f (a.take k) (b.take k)).length = k := by
    simp; omega
  rw [List.set_append_right _ _ (by omega), hlen, Nat.sub_self,
    List.drop_eq_getElem_cons hs, zipWith_take_succ f a b k ha hb]
  simp only [List.set_cons_zero, List.append_assoc, List.singleton_append]

/-- The spacing loop over the axes `0 .. k-1`: it succeeds when `roi`, the
dimensions and the spacing vector have `k` entries, and rewrites exactly these
entries of the spacing. -/
theorem spacingLoop_eq [Mul R] [Div R] [NatCast R] (self : FDFImageIOData R) (k : Nat)
    (hroi : k ≤ self.m_Roi.length) (hdim : k ≤ self.m_Dimensions.length)
    (hsp : k ≤ self.m_Spacing.length) :
    (List.range k).foldlM spacingStep self =
      .ok { self with
        m_Spacing :=
          List.zipWith (fun roi dim => roi * ((10 : Nat) : R) / ((dim : Nat) : R))
            (self.m_Roi.take k) (self.m_Dimensions.take k) ++ self.m_Spacing.drop k } := by
  induction k with
  | zero => simp [pure, Except.pure]
  | succ k ih =>
    rw [List.range_succ, List.foldlM_append, ih (by omega) (by omega) (by omega)]
    simp only [bind, Except.bind, pure, Except.pure, List.foldlM_cons, List.foldlM_nil,
      spacingStep, GetDimensions, SetSpacing,
      vectorAt_of_lt _ k (show k < self.m_Roi.length by omega),
      vectorAt_of_lt _ k (show k < self.m_Dimensions.length by omega)]
    rw [zipWith_take_set _ _ _ _ k (by omega) (by omega) (by omega)]

theorem GetComponentSize_resolved (P : Platform) (componentType : IOComponentEnum)
    (h : componentType ≠ .UNKNOWNCOMPONENTTYPE) :
    ∃ size, GetComponentSize P componentType = .ok size ∧ 0 < size := by
  cases componentType <;> simp [GetComponentSize] at h ⊢ <;> split <;> omega

/-- The end of `ReadImageInformation` on a well-formed object with a resolved
component type and a `roi` entry for each axis. -/
theorem finishHeader_eq [Mul R] [Div R] [NatCast R] (P : Platform) (fileSize : Nat)
    (self : FDFImageIOData R) (size : Nat) (hwf : self.WellFormed)
    (hsize : GetComponentSize P self.m_ComponentType = .ok size)
    (hroi : self.m_NumberOfDimensions ≤ self.m_Roi.length) :
    finishHeader P fileSize self =
      .ok { self with
        m_InputPosition := (fileSize : Int) - ((self.m_Dimensions.prod * size : Nat) : Int)
        m_Spacing :=
          List.zipWith (fun roi dim => roi * ((10 : Nat) : R) / ((dim : Nat) : R))
            (self.m_Roi.take self.m_NumberOfDimensions) self.m_Dimensions } := by
  obtain ⟨hd, -, -, hs⟩ := hwf
  simp only [finishHeader, GetImageSizeInBytes, GetImageSizeInPixels, hsize, bind,
    Except.bind, pure, Except.pure]
  rw [spacingLoop_eq _ _ (by simpa using hroi) (by simp [hd]) (by simp [hs])]
  have h1 : self.m_Dimensions.take self.m_NumberOfDimensions = self.m_Dimensions :=
    List.take_of_length_le (by omega)
  have h2 : self.m_Spacing.drop self.m_NumberOfDimensions = [] :=
    List.drop_of_length_le (by omega)
  simp [h1, h2]

/-- C6: at the end of `ReadImageInformation`, the spacing of every axis `i` below
the number of dimensions is `roi[i] * 10 / dimensions[i]` (the dimension not
zero), and the spacing vector is the list of these quotients. -/
theorem spacing_eq [Mul R] [Div R] [NatCast R] (P : Platform) (fileSize : Nat)
    (self : FDFImageIOData R) (hwf : self.WellFormed)
    (hct : self.m_ComponentType ≠ .UNKNOWNCOMPONENTTYPE)
    (hroi : self.m_NumberOfDimensions ≤ self.m_Roi.length) :
    ∃ self1,
      finishHeader P fileSize self = .ok self1 ∧
      self1.m_NumberOfDimensions = self.m_NumberOfDimensions ∧
      self1.m_Dimensions = self.m_Dimensions ∧
      self1.m_Roi = self.m_Roi ∧
      self1.m_Spacing =
        List.zipWith (fun roi dim => roi * ((10 : Nat) : R) / ((dim : Nat) : R))
          (self.m_Roi.take self.m_NumberOfDimensions) self.m_Dimensions ∧
      ∀ i roi dim, i < self.m_NumberOfDimensions →
        self.m_Roi[i]? = some roi → self.m_Dimensions[i]? = some dim → dim ≠ 0 →
        self1.m_Spacing[i]? = some (roi * ((10 : Nat) : R) / ((dim : Nat) : R)) := by
  obtain ⟨size, hsize, -⟩ := GetComponentSize_resolved P _ hct
  refine ⟨_, finishHeader_eq P fileSize self size hwf hsize hroi, rfl, rfl, rfl, rfl, ?_⟩
  intro i roi dim hi hr hd _
  simp only [List.getElem?_zipWith, List.getElem?_take, hi, if_true, hr, hd]

/-- C6 at the header with dimensions [64,64] and roi [10,10]: the spacing is
[1.5625, 1.5625]. -/
theorem spacing_eq_witness :
    header64.WellFormed ∧
    header64.m_ComponentType ≠ .UNKNOWNCOMPONENTTYPE ∧
    header64.m_NumberOfDimensions ≤ header64.m_Roi.length ∧
    header64.m_Dimensions = [64, 64] ∧ header64.m_Roi = [10, 10] ∧
    ∃ self1,
      finishHeader ⟨false, true⟩ 20000 header64 = .ok self1 ∧
      self1.m_Spacing = [1.5625, 1.5625] := by
  refine ⟨⟨rfl, rfl, rfl, rfl⟩, by decide, by decide, rfl, rfl, ?_⟩
  obtain ⟨self1, h1, -, -, -, h2, -⟩ :=
    spacing_eq ⟨false, true⟩ 20000 header64 ⟨rfl, rfl, rfl, rfl⟩ (by decide) (by decide)
  exact ⟨self1, h1, h2.trans (by norm_num [header64, FDFImageIOData.constructed])⟩

end Finish


/-! ## The `orientation` field -/

section Orientation

variable {R : Type}

theorem vectorAt_getD {α : Type} (v : List α) (i : Nat) (d : α) (h : i < v.length) :
    vectorAt v i = .ok (v.getD i d) := by
  simp [vectorAt, List.getElem?_eq_getElem h, List.getD_eq_getElem _ _ h]

theorem columnsFilled_put [NatCast R] (M : vnl_matrix R) (orientation : List R)
    (numDim k m : Nat) :
    (columnsFilled M orientation numDim k m).put m k
        (orientation.getD (k * numDim + m) ((0 : Nat) : R)) =
      columnsFilled M orientation numDim k (m + 1) := by
  simp only [columnsFilled, vnl_matrix.put, vnl_matrix.mk.injEq, true_and]
  funext r c
  by_cases h : r = m ∧ c = k
  · obtain ⟨rfl, rfl⟩ := h
    simp
  · have hiff : ((c < k ∧ r < numDim) ∨ (c = k ∧ r < m + 1)) ↔
        ((c < k ∧ r < numDim) ∨ (c = k ∧ r < m)) := by
      constructor
      · rintro (h1 | ⟨h1, h2⟩)
        · exact Or.inl h1
        · exact Or.inr ⟨h1, by
            rcases Nat.lt_succ_iff_lt_or_eq.mp h2 with h3 | h3
            · exact h3
            · exact absurd ⟨h3, h1⟩ h⟩
      · rintro (h1 | ⟨h1, h2⟩)
        · exact Or.inl h1
        · exact Or.inr ⟨h1, by omega⟩
    simp only [h, if_false, hiff]

theorem columnsFilled_next [NatCast R] (M : vnl_matrix R) (orientation : List R)
    (numDim k : Nat) :
    columnsFilled M orientation numDim k numDim =
      columnsFilled M orientation numDim (k + 1) 0 := by
  simp only [columnsFilled, vnl_matrix.mk.injEq, true_and]
  funext r c
  have hiff : ((c < k ∧ r < numDim) ∨ (c = k ∧ r < numDim)) ↔
      ((c < k + 1 ∧ r < numDim) ∨ (c = k + 1 ∧ r < 0)) := by
    constructor
    · rintro (⟨h1, h2⟩ | ⟨h1, h2⟩)
      · exact Or.inl ⟨by omega, h2⟩
      · exact Or.inl ⟨by omega, h2⟩
    · rintro (⟨h1, h2⟩ | ⟨_, h2⟩)
      · rcases Nat.lt_succ_iff_lt_or_eq.mp h1 with h3 | h3
        · exact Or.inl ⟨h3, h2⟩
        · exact Or.inr ⟨h3, h2⟩
      · exact absurd h2 (Nat.not_lt_zero r)
  simp only [hiff]

theorem columnsFilled_zero [NatCast R] (M : vnl_matrix R) (orientation : List R)
    (numDim : Nat) : columnsFilled M orientation numDim 0 0 = M := by
  simp [columnsFilled]

theorem take_drop_succ {α : Type} (v : List α) (a m : Nat) (d : α)
    (h : a + m < v.length) :
    (v.drop a).take (m + 1) = (v.drop a).take m ++ [v.getD (a + m) d] := by
  rw [List.take_succ, List.getElem?_drop, List.getElem?_eq_getElem h,
    List.getD_eq_getElem _ _ h]
  rfl

/-- The inner loop of the orientation branch over the rows `0 .. m-1` of column
`i`, all of them inside the orientation list. -/
theorem orientationInner_loop [NatCast R] (orientation : List R) (numDim i m : Nat)
    (M : vnl_matrix R) (h : i * numDim + m ≤ orientation.length) :
    (List.range m).foldlM (orientationInner orientation numDim i)
        (columnsFilled M orientation numDim i 0, []) =
      .ok (columnsFilled M orientation numDim i m,
        (orientation.drop (i * numDim)).take m) := by
  induction m with
  | zero => simp [pure, Except.pure]
  | succ m ih =>
    rw [List.range_succ, List.foldlM_append, ih (by omega)]
    simp only [bind, Except.bind, pure, Except.pure, List.foldlM_cons, List.foldlM_nil,
      orientationInner,
      vectorAt_getD orientation (i * numDim + m) ((0 : Nat) : R) (by omega),
      columnsFilled_put, List.nil_append]
    rw [take_drop_succ orientation (i * numDim) m ((0 : Nat) : R) (by omega)]

theorem set_map_range_append {α : Type} (f : Nat → α) (k : Nat) (l : List α)
    (hk : k < l.length) :
    ((List.range k).map f ++ l.drop k).set k (f k) =
      (List.range (k + 1)).map f ++ l.drop (k + 1) := by
  rw [List.set_append_right _ _ (by simp)]
  simp only [List.length_map, List.length_range, Nat.sub_self]
  rw [List.drop_eq_getElem_cons hk, List.range_succ]
  simp only [List.set_cons_zero, List.map_append, List.map_cons, List.map_nil,
    List.append_assoc, List.singleton_append]

/-- The outer loop of the orientation branch over the axes `0 .. k-1`, when the
orientation list has `numDim * numDim` values: the axes become the declared ones
and the columns of the test matrix are filled. -/
theorem orientationOuter_loop [NatCast R] (orientation : List R) (numDim k : Nat)
    (self : FDFImageIOData R) (M : vnl_matrix R) (hk : k ≤ numDim)
    (hlen : numDim * numDim ≤ orientation.length) (hdir : k ≤ self.m_Direction.length) :
    (List.range k).foldlM (orientationOuter orientation numDim) (self, M) =
      .ok ({ self with
              m_Direction :=
                (List.range k).map (declaredAxis orientation numDim) ++
                  self.m_Direction.drop k },
            columnsFilled M orientation numDim k 0) := by
  induction k with
  | zero => simp [pure, Except.pure, columnsFilled_zero]
  | succ k ih =>
    have hmul : k * numDim + numDim ≤ orientation.length := by
      have h1 : (k + 1) * numDim ≤ numDim * numDim := Nat.mul_le_mul_right numDim hk
      have h2 : (k + 1) * numDim = k * numDim + numDim := Nat.succ_mul k numDim
      omega
    rw [List.range_succ, List.foldlM_append, ih (by omega) (by omega)]
    simp only [bind, Except.bind, pure, Except.pure, List.foldlM_cons, List.foldlM_nil,
      orientationOuter, orientationInner_loop orientation numDim k numDim M hmul,
      SetDirection, columnsFilled_next]
    rw [show (orientation.drop (k * numDim)).take numDim =
        declaredAxis orientation numDim k from rfl,
      set_map_range_append (declaredAxis orientation numDim) k self.m_Direction (by omega),
      List.range_succ]

/-- The inner loop of the identity branch builds axis `i` of the identity. -/
theorem foldl_push_eq_map {α : Type} (g : Nat → α) (n : Nat) (acc : List α) :
    (List.range n).foldl (fun cv j => cv ++ [g j]) acc = acc ++ (List.range n).map g := by
  induction n with
  | zero => simp
  | succ n ih => simp [List.range_succ, List.foldl_append, ih]

/-- The loop that sets the directions to the identity rewrites the first `numDim`
axes. -/
theorem setIdentityDirections_eq [NatCast R] (numDim : Nat) (self : FDFImageIOData R)
    (hdir : numDim ≤ self.m_Direction.length) :
    setIdentityDirections numDim self =
      { self with
        m_Direction := identityDirections numDim ++ self.m_Direction.drop numDim } := by
  have hstep : ∀ (k : Nat) (s : FDFImageIOData R),
      (List.range k).foldl
          (fun self i =>
            SetDirection self i
              ((List.range numDim).foldl
                (fun (cv : List R) j =>
                  cv ++ [if i = j then ((1 : Nat) : R) else ((0 : Nat) : R)]) []))
          s =
        { s with
          m_Direction :=
            (List.range k).foldl (fun acc i => acc.set i (identityAxis numDim i))
              s.m_Direction } := by
    intro k
    induction k with
    | zero => intro s; simp
    | succ k ih =>
      intro s
      rw [List.range_succ, List.foldl_append, List.foldl_append, ih s]
      simp [SetDirection, foldl_push_eq_map, identityAxis]
  unfold setIdentityDirections
  rw [hstep numDim self, foldl_set_range _ _ _ hdir]
  rfl

/-- The orientation branch on a well-formed object and a list of at least
`numDim * numDim` values. -/
theorem orientationField_eq [NatCast R] [BEq R] (C : Common R) (value : String)
    (self : FDFImageIOData R) (hwf : self.WellFormed)
    (hlen : self.m_NumberOfDimensions * self.m_NumberOfDimensions ≤
      (C.StringToVector value []).length) :
    orientationField C value self =
      .ok { self with
        m_Direction :=
          if (C.vnl_determinant
              (declaredMatrix (C.StringToVector value []) self.m_NumberOfDimensions) ==
                ((0 : Nat) : R)) = true then
            identityDirections self.m_NumberOfDimensions
          else declaredDirections (C.StringToVector value []) self.m_NumberOfDimensions } := by
  obtain ⟨-, hdir, -, -⟩ := hwf
  have hM : columnsFilled
      ({ rows := self.m_NumberOfDimensions, cols := self.m_NumberOfDimensions,
         data := fun _ _ => ((0 : Nat) : R) } : vnl_matrix R)
      (C.StringToVector value []) self.m_NumberOfDimensions self.m_NumberOfDimensions 0 =
      declaredMatrix (C.StringToVector value []) self.m_NumberOfDimensions := by
    simp only [columnsFilled, declaredMatrix, vnl_matrix.mk.injEq, true_and]
    funext r c
    simp
  have hdrop : self.m_Direction.drop self.m_NumberOfDimensions = [] :=
    List.drop_of_length_le (by omega)
  unfold orientationField
  simp only [orientationOuter_loop (C.StringToVector value []) self.m_NumberOfDimensions
      self.m_NumberOfDimensions self _ (Nat.le_refl _) hlen (by omega),
    bind, Except.bind, pure, Except.pure, hM, hdrop, List.append_nil]
  split
  · rw [setIdentityDirections_eq _ _ (by simp)]
    simp [declaredDirections]
  · rfl

/-- A four-token line named "orientation" runs the orientation branch and no
other. -/
theorem headerField_orientation [Mul R] [Div R] [NatCast R] [BEq R] (C : Common R)
    (self : FDFImageIOData R) (type eq value : String) :
    headerField C [type, "orientation", eq, value] self = orientationField C value self := by
  simp [headerField]

/-- C7: for every number of dimensions `n` and every orientation list of at least
`n * n` values, after the orientation field is interpreted the directions are the
identity when the determinant of the declared matrix is zero and the declared axes
(axis `i` = values `i*n .. i*n+n-1`) otherwise, and nothing else has changed; for
`n = 2` and the list 1 0 0 1 0 0 the directions are the 2 by 2 identity. -/
theorem orientation_direction [Mul R] [Div R] [NatCast R] [BEq R] (C : Common R)
    (self : FDFImageIOData R) (type eq value : String) (hwf : self.WellFormed)
    (hlen : self.m_NumberOfDimensions * self.m_NumberOfDimensions ≤
      (C.StringToVector value []).length) :
    headerField C [type, "orientation", eq, value] self =
      .ok { self with
        m_Direction :=
          if (C.vnl_determinant
              (declaredMatrix (C.StringToVector value []) self.m_NumberOfDimensions) ==
                ((0 : Nat) : R)) = true then
            identityDirections self.m_NumberOfDimensions
          else declaredDirections (C.StringToVector value []) self.m_NumberOfDimensions } ∧
    (self.m_NumberOfDimensions = 2 →
      C.StringToVector value [] =
        [((1 : Nat) : R), ((0 : Nat) : R), ((0 : Nat) : R), ((1 : Nat) : R),
          ((0 : Nat) : R), ((0 : Nat) : R)] →
      headerField C [type, "orientation", eq, value] self =
        .ok { self with
          m_Direction :=
            [[((1 : Nat) : R), ((0 : Nat) : R)], [((0 : Nat) : R), ((1 : Nat) : R)]] }) := by
  rw [headerField_orientation, orientationField_eq C value self hwf hlen]
  refine ⟨rfl, fun h2 ho => ?_⟩
  rw [h2, ho]
  have hid : identityDirections (R := R) 2 =
      [[((1 : Nat) : R), ((0 : Nat) : R)], [((0 : Nat) : R), ((1 : Nat) : R)]] := by
    simp [identityDirections, identityAxis, List.range_succ]
  have hdecl : declaredDirections
      [((1 : Nat) : R), ((0 : Nat) : R), ((0 : Nat) : R), ((1 : Nat) : R),
        ((0 : Nat) : R), ((0 : Nat) : R)] 2 =
      [[((1 : Nat) : R), ((0 : Nat) : R)], [((0 : Nat) : R), ((1 : Nat) : R)]] := by
    simp [declaredDirections, declaredAxis, List.range_succ]
  rw [hid, hdecl]
  simp

/-- C7 at a two-dimensional object and the orientation list 1 0 0 1 0 0, with
exact rational arithmetic. -/
theorem orientation_direction_witness :
    header64.WellFormed ∧
    header64.m_NumberOfDimensions * header64.m_NumberOfDimensions ≤
      (rationalCommon.StringToVector "{1,0,0,1,0,0}" []).length ∧
    headerField rationalCommon ["float", "orientation", "=", "{1,0,0,1,0,0}"] header64 =
      .ok { header64 with m_Direction := [[1, 0], [0, 1]] } := by
  have hwf : header64.WellFormed := ⟨rfl, rfl, rfl, rfl⟩
  have hlen : header64.m_NumberOfDimensions * header64.m_NumberOfDimensions ≤
      (rationalCommon.StringToVector "{1,0,0,1,0,0}" []).length := by decide
  refine ⟨hwf, hlen, ?_⟩
  have h := (orientation_direction rationalCommon header64 "float" "=" "{1,0,0,1,0,0}"
    hwf hlen).2 rfl (by simp [rationalCommon])
  simpa using h

end Orientation

/-! ## Byte swapping -/

/-- `SwapRange` on a buffer that holds the `num` elements: it succeeds, keeps the
length, reverses the `w` bytes of each element in place and leaves the bytes after
the elements alone. -/
theorem SwapRange_spec (w : Nat) (num : Nat) (p : List Byte) (h : num * w ≤ p.length) :
    ∃ out, SwapRange w num p = .ok out ∧ out.length = p.length ∧
      (∀ k j, k < num → j < w → out[k * w + j]? = p[k * w + (w - 1 - j)]?) ∧
      (∀ idx, num * w ≤ idx → out[idx]? = p[idx]?) := by
  induction num generalizing p with
  | zero =>
    exact ⟨p, rfl, rfl, fun k j hk => absurd hk (Nat.not_lt_zero k), fun idx _ => rfl⟩
  | succ n ih =>
    have hmul : (n + 1) * w = n * w + w := Nat.succ_mul n w
    have hw : w ≤ p.length := by omega
    obtain ⟨rest, hrest, hlen, helem, htail⟩ := ih (p.drop w) (by simp; omega)
    refine ⟨(p.take w).reverse ++ rest, ?_, ?_, ?_, ?_⟩
    · simp only [SwapRange, if_neg (Nat.not_lt.mpr hw), hrest, bind, Except.bind, pure,
        Except.pure]
    · simp [hlen]; omega
    · intro k j hk hj
      have hrl : (p.take w).reverse.length = w := by simp [hw]
      cases k with
      | zero =>
        rw [Nat.zero_mul, Nat.zero_add, Nat.zero_add,
          List.getElem?_append_left (by omega),
          List.getElem?_reverse (by simp; omega), List.getElem?_take]
        simp only [List.length_take, Nat.min_eq_left hw]
        rw [if_pos (by omega)]
      | succ k =>
        have hk1 : (k + 1) * w = k * w + w := Nat.succ_mul k w
        rw [List.getElem?_append_right (by omega), hrl,
          show (k + 1) * w + j - w = k * w + j by omega,
          helem k j (by omega) hj, List.getElem?_drop]
        congr 1
        omega
    · intro idx hidx
      have hrl : (p.take w).reverse.length = w := by simp [hw]
      rw [List.getElem?_append_right (by omega), hrl, htail (idx - w) (by omega),
        List.getElem?_drop]
      congr 1
      omega

/-- `SwapRange` undoes itself. -/
theorem SwapRange_twice (w : Nat) (num : Nat) (p out : List Byte)
    (h : SwapRange w num p = .ok out) : SwapRange w num out = .ok p := by
  induction num generalizing p out with
  | zero =>
    simp only [SwapRange, Except.ok.injEq] at h
    subst h
    rfl
  | succ n ih =>
    simp only [SwapRange] at h
    by_cases hw : p.length < w
    · rw [if_pos hw] at h
      exact absurd h (by simp)
    · rw [if_neg hw] at h
      cases hrest : SwapRange w n (p.drop w) with
      | error e =>
        rw [hrest] at h
        exact absurd h (by simp [bind, Except.bind])
      | ok rest =>
        rw [hrest] at h
        simp only [bind, Except.bind, pure, Except.pure, Except.ok.injEq] at h
        subst h
        have hrl : (p.take w).reverse.length = w := by simp; omega
        have htake : ((p.take w).reverse ++ rest).take w = (p.take w).reverse := by
          rw [List.take_append_of_le_length (by omega), List.take_of_length_le (by omega)]
        have hdrop : ((p.take w).reverse ++ rest).drop w = rest := by
          rw [List.drop_append_of_le_length (by omega), List.drop_of_length_le (by omega)]
          rfl
        simp only [SwapRange, List.length_append, hrl]
        rw [if_neg (by omega), hdrop, ih _ _ hrest, htake]
        simp [bind, Except.bind, pure, Except.pure]

/-- The `switch( sizeof(T) )` on one of the sizes 1, 2, 4, 8 and a buffer that
holds the elements. -/
theorem swapBySize_spec (w : Nat) (num : Nat) (p : List Byte)
    (hw : w = 1 ∨ w = 2 ∨ w = 4 ∨ w = 8) (h : num * w ≤ p.length) :
    ∃ out, swapBySize w p num = .ok out ∧ out.length = p.length ∧
      (∀ k j, k < num → j < w → out[k * w + j]? = p[k * w + (w - 1 - j)]?) ∧
      (∀ idx, num * w ≤ idx → out[idx]? = p[idx]?) ∧
      (w = 1 → out = p) := by
  rcases hw with rfl | rfl | rfl | rfl
  · refine ⟨p, rfl, rfl, fun k j _ hj => ?_, fun _ _ => rfl, fun _ => rfl⟩
    have : j = 0 := by omega
    subst this
    rfl
  · obtain ⟨out, h1, h2, h3, h4⟩ := SwapRange_spec 2 num p h
    exact ⟨out, h1, h2, h3, h4, fun h => absurd h (by decide)⟩
  · obtain ⟨out, h1, h2, h3, h4⟩ := SwapRange_spec 4 num p h
    exact ⟨out, h1, h2, h3, h4, fun h => absurd h (by decide)⟩
  · obtain ⟨out, h1, h2, h3, h4⟩ := SwapRange_spec 8 num p h
    exact ⟨out, h1, h2, h3, h4, fun h => absurd h (by decide)⟩

theorem swapBySize_twice (w : Nat) (num : Nat) (p out : List Byte)
    (h : swapBySize w p num = .ok out) : swapBySize w out num = .ok p := by
  unfold swapBySize at h ⊢
  split at h
  · simp only [Except.ok.injEq] at h
    subst h
    rfl
  · exact SwapRange_twice 2 num p out h
  · exact SwapRange_twice 4 num p out h
  · exact SwapRange_twice 8 num p out h
  · exact absurd h (by simp)

/-- On each of the nine component types that have a `case`, the `switch` of
`SwapBytesIfNecessary` runs the two byte-order tests at the size that `sizeof`
gives for the type. -/
theorem SwapBytesIfNecessary_eq_swapCase (P : Platform) (componentType : IOComponentEnum)
    (w : Nat) (byteOrder : IOByteOrderEnum) (buffer : List Byte) (numberOfPixels : Nat)
    (hw : GetComponentSize P componentType = .ok w) (hsup : componentType ≠ .DOUBLE) :
    SwapBytesIfNecessary P componentType byteOrder buffer numberOfPixels =
        swapCase P byteOrder w buffer numberOfPixels ∧
      (w = 1 ∨ w = 2 ∨ w = 4 ∨ w = 8) ∧
      ((componentType = .CHAR ∨ componentType = .UCHAR) → w = 1) := by
  cases componentType <;>
    simp only [GetComponentSize, Except.ok.injEq, reduceCtorEq, ne_eq,
      not_true_eq_false] at hw hsup <;>
    subst hw <;>
    simp only [SwapBytesIfNecessary, sizeofLong, true_and, reduceCtorEq, or_self, false_or,
      or_false, true_or, or_true, false_implies, implies_true, and_true] <;>
    cases P.longIs8Bytes <;> simp

theorem swapCase_native (P : Platform) (w : Nat) (buffer : List Byte) (num : Nat) :
    swapCase P (nativeOrder P) w buffer num = .ok buffer := by
  unfold swapCase nativeOrder SwapRangeFromSystemToLittleEndian SwapRangeFromSystemToBigEndian
  cases P.systemIsBigEndian <;> simp

theorem swapCase_foreign (P : Platform) (byteOrder : IOByteOrderEnum) (w : Nat)
    (buffer : List Byte) (num : Nat)
    (hord : byteOrder = .LittleEndian ∨ byteOrder = .BigEndian)
    (hne : byteOrder ≠ nativeOrder P) :
    swapCase P byteOrder w buffer num = swapBySize w buffer num := by
  unfold swapCase SwapRangeFromSystemToLittleEndian SwapRangeFromSystemToBigEndian
  unfold nativeOrder at hne
  rcases hord with rfl | rfl <;> cases hP : P.systemIsBigEndian <;> simp_all

theorem swapCase_twice (P : Platform) (byteOrder : IOByteOrderEnum) (w : Nat)
    (buffer out : List Byte) (num : Nat) (h : swapCase P byteOrder w buffer num = .ok out) :
    swapCase P byteOrder w out num = .ok buffer := by
  unfold swapCase SwapRangeFromSystemToLittleEndian SwapRangeFromSystemToBigEndian at h ⊢
  cases byteOrder <;> cases hP : P.systemIsBigEndian <;> simp_all <;>
    exact swapBySize_twice w num buffer out h

/-- C8: for every component type that `SwapBytesIfNecessary` supports, of element
width `w`, every declared byte order, every platform and every buffer that holds
the `numberOfPixels` elements, the call succeeds and keeps the length; the buffer
is unchanged when the declared order is the native one, and otherwise the `w`
bytes of each element are reversed in place (and the bytes after the elements are
untouched); for `CHAR` and `UCHAR` the buffer is unchanged in every case. -/
theorem SwapBytesIfNecessary_spec (P : Platform) (componentType : IOComponentEnum)
    (w : Nat) (byteOrder : IOByteOrderEnum) (buffer : List Byte) (numberOfPixels : Nat)
    (hw : GetComponentSize P componentType = .ok w) (hsup : componentType ≠ .DOUBLE)
    (hord : byteOrder = .LittleEndian ∨ byteOrder = .BigEndian)
    (hbuf : numberOfPixels * w ≤ buffer.length) :
    ∃ out,
      SwapBytesIfNecessary P componentType byteOrder buffer numberOfPixels = .ok out ∧
      out.length = buffer.length ∧
      (byteOrder = nativeOrder P → out = buffer) ∧
      (byteOrder ≠ nativeOrder P →
        (∀ k j, k < numberOfPixels → j < w →
          out[k * w + j]? = buffer[k * w + (w - 1 - j)]?) ∧
        (∀ idx, numberOfPixels * w ≤ idx → out[idx]? = buffer[idx]?)) ∧
      ((componentType = .CHAR ∨ componentType = .UCHAR) → out = buffer) := by
  obtain ⟨heq, hw4, hchar⟩ :=
    SwapBytesIfNecessary_eq_swapCase P componentType w byteOrder buffer numberOfPixels hw hsup
  rw [heq]
  by_cases hnat : byteOrder = nativeOrder P
  · subst hnat
    exact ⟨buffer, swapCase_native P w buffer numberOfPixels, rfl, fun _ => rfl,
      fun h => absurd rfl h, fun _ => rfl⟩
  · obtain ⟨out, h1, h2, h3, h4, h5⟩ := swapBySize_spec w numberOfPixels buffer hw4 hbuf
    rw [swapCase_foreign P byteOrder w buffer numberOfPixels hord hnat]
    exact ⟨out, h1, h2, fun h => absurd h hnat, fun _ => ⟨h3, h4⟩, fun hc => h5 (hchar hc)⟩

/-- C8 at three big-endian `short` elements read on a little-endian machine. -/
theorem SwapBytesIfNecessary_spec_witness :
    GetComponentSize ⟨false, true⟩ .SHORT = .ok 2 ∧
    IOComponentEnum.SHORT ≠ .DOUBLE ∧
    (IOByteOrderEnum.BigEndian = .LittleEndian ∨
      IOByteOrderEnum.BigEndian = IOByteOrderEnum.BigEndian) ∧
    3 * 2 ≤ ([1, 2, 3, 4, 5, 6] : List Byte).length ∧
    ∃ out,
      SwapBytesIfNecessary ⟨false, true⟩ .SHORT .BigEndian [1, 2, 3, 4, 5, 6] 3 = .ok out ∧
      out.length = ([1, 2, 3, 4, 5, 6] : List Byte).length ∧
      (IOByteOrderEnum.BigEndian = nativeOrder ⟨false, true⟩ → out = [1, 2, 3, 4, 5, 6]) ∧
      (IOByteOrderEnum.BigEndian ≠ nativeOrder ⟨false, true⟩ →
        (∀ k j, k < 3 → j < 2 →
          out[k * 2 + j]? = ([1, 2, 3, 4, 5, 6] : List Byte)[k * 2 + (2 - 1 - j)]?) ∧
        (∀ idx, 3 * 2 ≤ idx → out[idx]? = ([1, 2, 3, 4, 5, 6] : List Byte)[idx]?)) ∧
      ((IOComponentEnum.SHORT = .CHAR ∨ IOComponentEnum.SHORT = .UCHAR) →
        out = [1, 2, 3, 4, 5, 6]) :=
  ⟨rfl, by decide, Or.inr rfl, by decide,
    SwapBytesIfNecessary_spec ⟨false, true⟩ .SHORT 2 .BigEndian [1, 2, 3, 4, 5, 6] 3 rfl
      (by decide) (Or.inr rfl) (by decide)⟩

/-- C9: for every component type that `SwapBytesIfNecessary` supports, every
declared byte order, every platform and every buffer that holds the elements, the
call succeeds, and a second call with the same byte order gives back the original
buffer. -/
theorem SwapBytesIfNecessary_twice (P : Platform) (componentType : IOComponentEnum)
    (w : Nat) (byteOrder : IOByteOrderEnum) (buffer : List Byte) (numberOfPixels : Nat)
    (hw : GetComponentSize P componentType = .ok w) (hsup : componentType ≠ .DOUBLE)
    (hbuf : numberOfPixels * w ≤ buffer.length) :
    ∃ out,
      SwapBytesIfNecessary P componentType byteOrder buffer numberOfPixels = .ok out ∧
      SwapBytesIfNecessary P componentType byteOrder out numberOfPixels = .ok buffer := by
  obtain ⟨heq, hw4, -⟩ :=
    SwapBytesIfNecessary_eq_swapCase P componentType w byteOrder buffer numberOfPixels hw hsup
  have hout : ∃ out, swapCase P byteOrder w buffer numberOfPixels = .ok out := by
    by_cases hnat : byteOrder = nativeOrder P
    · subst hnat
      exact ⟨buffer, swapCase_native P w buffer numberOfPixels⟩
    · cases byteOrder with
      | OrderNotApplicable => exact ⟨buffer, by simp [swapCase]⟩
      | LittleEndian =>
        obtain ⟨out, h1, -⟩ := swapBySize_spec w numberOfPixels buffer hw4 hbuf
        exact ⟨out, by rw [swapCase_foreign P _ w buffer numberOfPixels (Or.inl rfl) hnat, h1]⟩
      | BigEndian =>
        obtain ⟨out, h1, -⟩ := swapBySize_spec w numberOfPixels buffer hw4 hbuf
        exact ⟨out, by rw [swapCase_foreign P _ w buffer numberOfPixels (Or.inr rfl) hnat, h1]⟩
  obtain ⟨out, h1⟩ := hout
  refine ⟨out, by rw [heq, h1], ?_⟩
  rw [(SwapBytesIfNecessary_eq_swapCase P componentType w byteOrder out numberOfPixels
    hw hsup).1]
  exact swapCase_twice P byteOrder w buffer out numberOfPixels h1

/-- C9 at two little-endian `float` elements read on a big-endian machine. -/
theorem SwapBytesIfNecessary_twice_witness :
    GetComponentSize ⟨true, true⟩ .FLOAT = .ok 4 ∧
    IOComponentEnum.FLOAT ≠ .DOUBLE ∧
    2 * 4 ≤ ([1, 2, 3, 4, 5, 6, 7, 8] : List Byte).length ∧
    ∃ out,
      SwapBytesIfNecessary ⟨true, true⟩ .FLOAT .LittleEndian [1, 2, 3, 4, 5, 6, 7, 8] 2 =
        .ok out ∧
      SwapBytesIfNecessary ⟨true, true⟩ .FLOAT .LittleEndian out 2 =
        .ok [1, 2, 3, 4, 5, 6, 7, 8] :=
  ⟨rfl, by decide, by decide,
    SwapBytesIfNecessary_twice ⟨true, true⟩ .FLOAT 4 .LittleEndian [1, 2, 3, 4, 5, 6, 7, 8] 2
      rfl (by decide) (by decide)⟩

/-! ## Lines that the field dispatch ignores -/

/-- C10: the field dispatch returns the object unchanged, without an error, when
the token sequence does not have exactly four tokens, and when it has four tokens
whose name (the second) is none of the eleven names of the dispatch table. -/
theorem headerField_ignores {R : Type} [Mul R] [Div R] [NatCast R] [BEq R] (C : Common R)
    (self : FDFImageIOData R) (tokens : List String)
    (h : tokens.length ≠ 4 ∨
      ∃ type name eq value, tokens = [type, name, eq, value] ∧ name ∉ fieldNames) :
    headerField C tokens self = .ok self := by
  rcases h with h | ⟨type, name, eq, value, rfl, hname⟩
  · unfold headerField
    split
    · exact absurd rfl h
    · rfl
  · simp only [fieldNames, List.mem_cons, List.mem_singleton, List.not_mem_nil, or_false,
      not_or] at hname
    obtain ⟨h1, h2, h3, h4, h5, h6, h7, h8, h9, h10, h11⟩ := hname
    simp only [headerField, h1, h2, h3, h4, h5, h6, h7, h8, h9, h10, h11, if_false]
    rfl

/-- C10 at a line of three tokens. -/
theorem headerField_ignores_witness :
    ((["#!/usr/local/fdf/startup", "float", "rank"] : List String).length ≠ 4 ∨
      ∃ type name eq value,
        ["#!/usr/local/fdf/startup", "float", "rank"] = [type, name, eq, value] ∧
          name ∉ fieldNames) ∧
    headerField rationalCommon ["#!/usr/local/fdf/startup", "float", "rank"] header64 =
      .ok header64 :=
  ⟨Or.inl (by decide),
    headerField_ignores rationalCommon header64 _ (Or.inl (by decide))⟩

/-! ## Well-formedness is kept by the header loop -/

section WellFormed

variable {R : Type}

theorem constructed_wellFormed : (FDFImageIOData.constructed R).WellFormed :=
  ⟨rfl, rfl, rfl, rfl⟩

theorem SetNumberOfDimensions_wellFormed [NatCast R] (self : FDFImageIOData R) (dim : Nat)
    (hwf : self.WellFormed) :
    (SetNumberOfDimensions self dim).WellFormed ∧
      (dim ≠ self.m_NumberOfDimensions →
        (SetNumberOfDimensions self dim).m_NumberOfDimensions = dim) := by
  unfold SetNumberOfDimensions
  by_cases h : dim ≠ self.m_NumberOfDimensions
  · rw [if_pos h]
    refine ⟨⟨?_, ?_, ?_, ?_⟩, fun _ => rfl⟩
    · simp only [resize, List.length_append, List.length_take, List.length_replicate]
      omega
    · simp
    · simp
    · simp
  · rw [if_neg h]
    exact ⟨hwf, fun h1 => absurd h1 h⟩

/-- A loop whose every pass keeps a property keeps it. -/
theorem foldl_invariant {σ α : Type} (f : σ → α → σ) (I : σ → Prop)
    (hf : ∀ s a, I s → I (f s a)) (l : List α) (s : σ) (hs : I s) : I (l.foldl f s) := by
  induction l generalizing s with
  | nil => exact hs
  | cons a l ih => exact ih (f s a) (hf s a hs)

/-- A loop that can fail keeps a property that every successful pass keeps. -/
theorem foldlM_invariant {σ α : Type} (f : σ → α → Except Error σ) (I : σ → Prop)
    (hf : ∀ s a s1, I s → f s a = .ok s1 → I s1) (l : List α) (s s1 : σ) (hs : I s)
    (h : l.foldlM f s = .ok s1) : I s1 := by
  induction l generalizing s with
  | nil =>
    simp only [List.foldlM_nil, pure, Except.pure, Except.ok.injEq] at h
    exact h ▸ hs
  | cons a l ih =>
    rw [List.foldlM_cons] at h
    cases hfa : f s a with
    | error e =>
      rw [hfa] at h
      exact absurd h (by simp [bind, Except.bind])
    | ok s2 =>
      rw [hfa] at h
      exact ih s2 (hf s a s2 hs hfa) h

theorem matrixField_wellFormed [NatCast R] (C : Common R) (value : String)
    (self : FDFImageIOData R) (hwf : self.WellFormed) :
    (matrixField C value self).WellFormed := by
  unfold matrixField
  have h0 : (if self.m_NumberOfDimensions < (C.StringToVector value []).length then
      SetNumberOfDimensions self (C.StringToVector value []).length else self).WellFormed := by
    split
    · exact (SetNumberOfDimensions_wellFormed self _ hwf).1
    · exact hwf
  have h1 := foldl_invariant
    (fun (self : FDFImageIOData R) (ix : Nat × R) =>
      SetDimensions self ix.1 (C.toSizeValue ix.2))
    (fun s => s.WellFormed)
    (fun s a hs => by
      obtain ⟨a1, a2, a3, a4⟩ := hs
      exact ⟨by simp [SetDimensions, a1], a2, a3, a4⟩)
    (C.StringToVector value []).enum _ h0
  exact h1

theorem originField_wellFormed [Div R] [NatCast R] (C : Common R) (value : String)
    (self : FDFImageIOData R) (hwf : self.WellFormed) :
    (originField C value self).WellFormed := by
  unfold originField
  have h0 : (if self.m_NumberOfDimensions < (C.StringToVector value []).length then
      SetNumberOfDimensions self (C.StringToVector value []).length else self).WellFormed := by
    split
    · exact (SetNumberOfDimensions_wellFormed self _ hwf).1
    · exact hwf
  exact foldl_invariant
    (fun (self : FDFImageIOData R) (ix : Nat × R) =>
      SetOrigin self ix.1 (ix.2 / ((10 : Nat) : R)))
    (fun s => s.WellFormed)
    (fun s a hs => by
      obtain ⟨a1, a2, a3, a4⟩ := hs
      exact ⟨a1, a2, by simp [SetOrigin, a3], a4⟩)
    (C.StringToVector value []).enum _ h0

theorem SetDirection_wellFormed (self : FDFImageIOData R) (i : Nat) (direction : List R)
    (hwf : self.WellFormed) : (SetDirection self i direction).WellFormed := by
  obtain ⟨a1, a2, a3, a4⟩ := hwf
  exact ⟨a1, by simp [SetDirection, a2], a3, a4⟩

theorem orientationField_wellFormed [NatCast R] [BEq R] (C : Common R) (value : String)
    (self self1 : FDFImageIOData R) (hwf : self.WellFormed)
    (h : orientationField C value self = .ok self1) : self1.WellFormed := by
  unfold orientationField at h
  simp only [bind, Except.bind] at h
  split at h
  · exact absurd h (by simp)
  · rename_i st hst
    have hI := foldlM_invariant
      (orientationOuter (C.StringToVector value []) self.m_NumberOfDimensions)
      (fun (st : FDFImageIOData R × vnl_matrix R) => st.1.WellFormed)
      (fun s a s1 hs hstep => by
        unfold orientationOuter at hstep
        simp only [bind, Except.bind] at hstep
        split at hstep
        · exact absurd hstep (by simp)
        · simp only [pure, Except.pure, Except.ok.injEq] at hstep
          rw [← hstep]
          exact SetDirection_wellFormed _ _ _ hs)
      _ _ _ hwf hst
    have hid : (setIdentityDirections self.m_NumberOfDimensions st.1).WellFormed := by
      unfold setIdentityDirections
      exact foldl_invariant _ (fun (s : FDFImageIOData R) => s.WellFormed)
        (fun s a hs => SetDirection_wellFormed _ _ _ hs) _ _ hI
    split at h
    · simp only [pure, Except.pure, Except.ok.injEq] at h
      exact h ▸ hid
    · simp only [pure, Except.pure, Except.ok.injEq] at h
      exact h ▸ hI

theorem storageField_wellFormed (value : String) (self self1 : FDFImageIOData R)
    (hwf : self.WellFormed) (h : storageField value self = .ok self1) : self1.WellFormed := by
  by_cases hmem : value ∈ storageKeywords
  · simp only [storageKeywords, List.mem_cons, List.mem_singleton, List.not_mem_nil,
      or_false] at hmem
    rcases hmem with h1 | h1 | h1 | h1 | h1 | h1 | h1 | h1 | h1 | h1 <;> subst h1 <;>
      simp [storageField] at h <;> rw [← h] <;> exact hwf
  · rw [storageField_error_of_not_mem self value hmem] at h
    exact absurd h (by simp)

theorem bigendianField_wellFormed (value : String) (self : FDFImageIOData R)
    (hwf : self.WellFormed) : (bigendianField value self).WellFormed := by
  unfold bigendianField
  split <;> exact hwf

/-- The field dispatch keeps the vectors of the base class at the length
`m_NumberOfDimensions`. -/
theorem headerField_wellFormed [Mul R] [Div R] [NatCast R] [BEq R] (C : Common R)
    (tokens : List String) (self self1 : FDFImageIOData R) (hwf : self.WellFormed)
    (h : headerField C tokens self = .ok self1) : self1.WellFormed := by
  unfold headerField at h
  split at h
  · rename_i type name eq value
    by_cases h1 : name = "spatial_rank"
    · subst h1
      simp at h
      simp only [pure, Except.pure, Except.ok.injEq] at h
      rw [← h]
      exact hwf
    by_cases h2 : name = "matrix"
    · subst h2
      simp at h
      simp only [pure, Except.pure, Except.ok.injEq] at h
      rw [← h]
      exact matrixField_wellFormed C value self hwf
    by_cases h3 : name = "orientation"
    · subst h3; simp at h; exact orientationField_wellFormed C value self self1 hwf h
    by_cases h4 : name = "span"
    · subst h4
      simp at h
      simp only [pure, Except.pure, Except.ok.injEq] at h
      rw [← h]
      exact hwf
    by_cases h5 : name = "origin"
    · subst h5
      simp at h
      simp only [pure, Except.pure, Except.ok.injEq] at h
      rw [← h]
      exact originField_wellFormed C value self hwf
    by_cases h6 : name = "roi"
    · subst h6
      simp at h
      simp only [pure, Except.pure, Except.ok.injEq] at h
      rw [← h]
      exact hwf
    by_cases h7 : name = "location"
    · subst h7
      simp at h
      simp only [pure, Except.pure, Except.ok.injEq] at h
      rw [← h]
      exact hwf
    by_cases h8 : name = "bigendian"
    · subst h8
      simp at h
      simp only [pure, Except.pure, Except.ok.injEq] at h
      rw [← h]
      exact bigendianField_wellFormed value self hwf
    by_cases h9 : name = "storage"
    · subst h9; simp at h; exact storageField_wellFormed value self self1 hwf h
    by_cases h10 : name = "bits"
    · subst h10
      simp at h
      simp only [pure, Except.pure, Except.ok.injEq] at h
      rw [← h]
      exact hwf
    by_cases h11 : name = "checksum"
    · subst h11
      simp at h
      simp only [pure, Except.pure, Except.ok.injEq] at h
      rw [← h]
      exact hwf
    simp only [h1, h2, h3, h4, h5, h6, h7, h8, h9, h10, h11, if_false] at h
    simp only [bind, Except.bind, pure, Except.pure, Except.ok.injEq] at h
    rw [← h]; exact hwf
  · simp only [pure, Except.pure, Except.ok.injEq] at h
    rw [← h]; exact hwf

/-- The header loop keeps the vectors of the base class at the length
`m_NumberOfDimensions`. -/
theorem headerLoop_wellFormed [Mul R] [Div R] [NatCast R] [BEq R] (C : Common R)
    (lines : List String) (self self1 : FDFImageIOData R) (hwf : self.WellFormed)
    (h : headerLoop C lines self = .ok self1) : self1.WellFormed := by
  induction lines generalizing self with
  | nil =>
    simp only [headerLoop, pure, Except.pure, Except.ok.injEq] at h
    rw [← h]; exact hwf
  | cons line rest ih =>
    simp only [headerLoop] at h
    split at h
    · simp only [pure, Except.pure, Except.ok.injEq] at h
      rw [← h]; exact hwf
    · cases hf : headerField C (C.Tokenize (C.ParseLine line)) self with
      | error e =>
        rw [hf] at h
        exact absurd h (by simp [bind, Except.bind])
      | ok self2 =>
        rw [hf] at h
        exact ih self2 (headerField_wellFormed C _ self self2 hwf hf) h

/-- `CanReadFile` changes the file name of the object and nothing else. -/
theorem CanReadFile_self (fs : FileSystem) (self : FDFImageIOData R) (file : String) :
    (CanReadFile fs self file).self = { self with m_FileName := file } := by
  unfold CanReadFile
  by_cases h1 : file = ""
  · simp [h1]
  · by_cases h2 : extensionFound file = true
    · cases hfs : fs file <;> simp [h1, h2, hfs]
    · simp [h1, h2]

/-- `ReadImageInformation` on a name that `CanReadFile` accepts, a file that opens
and a header loop that ends with the object `self1`: what is left to do is the
end of the function on `self1` and the size of the file. -/
theorem ReadImageInformation_eq [Mul R] [Div R] [NatCast R] [BEq R] (C : Common R)
    (P : Platform) (fs : FileSystem) (self self1 : FDFImageIOData R) (inFile : FileData)
    (hprobe : (CanReadFile fs self self.m_FileName).result = .ok true)
    (hfile : fs self.m_FileName = some inFile)
    (hloop : headerLoop C inFile.lines { self with m_FileType := .Binary } = .ok self1) :
    ReadImageInformation C P fs self = finishHeader P inFile.bytes.length self1 := by
  have hself : (CanReadFile fs self self.m_FileName).self = self := by
    rw [CanReadFile_self]
  unfold ReadImageInformation
  simp only [hprobe, hself, hfile, hloop, bind, Except.bind]

end WellFormed

/-! ## `CanReadFile` on a file that does not open -/

/-- C11: for every path that ends with ".fdf" or ".FDF" and whose file cannot be
opened, `CanReadFile` throws ("File ... cannot be read.") after one attempt to
open the file; it does not return false, nor true. -/
theorem CanReadFile_raises {R : Type} (fs : FileSystem) (self : FDFImageIOData R)
    (file : String) (hlen : file.length < 2 ^ 64)
    (hext : endsWith file ".fdf" ∨ endsWith file ".FDF") (hfs : fs file = none) :
    (CanReadFile fs self file).result = .error (.cannotBeRead file) ∧
    (CanReadFile fs self file).opened = [file] ∧
    (∀ b, (CanReadFile fs self file).result ≠ .ok b) := by
  have hx := (extensionFound_iff file hlen).mpr hext
  have hne : file ≠ "" := by
    rintro rfl
    rcases hext with h | h
    · exact not_endsWith_empty ".fdf" (by decide) h
    · exact not_endsWith_empty ".FDF" (by decide) h
  have hres : (CanReadFile fs self file).result = .error (.cannotBeRead file) := by
    simp [CanReadFile, hne, hx, hfs]
  refine ⟨hres, by simp [CanReadFile, hne, hx, hfs], fun b hb => ?_⟩
  rw [hres] at hb
  exact absurd hb (by simp)

/-- C11 at the path "scan.fdf" of an empty file system. -/
theorem CanReadFile_raises_witness :
    (("scan.fdf" : String).length < 2 ^ 64) ∧
    (endsWith "scan.fdf" ".fdf" ∨ endsWith "scan.fdf" ".FDF") ∧
    ((fun _ => none : FileSystem) "scan.fdf" = none) ∧
    (CanReadFile (fun _ => none) (FDFImageIOData.constructed Int) "scan.fdf").result =
      .error (.cannotBeRead "scan.fdf") ∧
    (CanReadFile (fun _ => none) (FDFImageIOData.constructed Int) "scan.fdf").opened =
      ["scan.fdf"] ∧
    (∀ b, (CanReadFile (fun _ => none) (FDFImageIOData.constructed Int) "scan.fdf").result ≠
      .ok b) :=
  ⟨by decide, Or.inl (by decide), rfl,
    CanReadFile_raises (fun _ => none) (FDFImageIOData.constructed Int) "scan.fdf"
      (by decide) (Or.inl (by decide)) rfl⟩

/-! ## The write members -/

/-- C13: `CanWriteFile` answers false for every file name, and
`WriteImageInformation` and `Write` return without an exception and leave the
object and every file as they were. -/
theorem write_members_do_nothing {R : Type} (fs : FileSystem) (self : FDFImageIOData R)
    (name : String) (buffer : List Byte) :
    CanWriteFile self name = false ∧
    WriteImageInformation fs self = .ok (self, fs) ∧
    Write fs self buffer = .ok (self, fs) :=
  ⟨rfl, rfl, rfl⟩

/-! ## The `bigendian` field -/

/-- A four-token line named "bigendian" runs the byte-order branch and no other. -/
theorem headerField_bigendian {R : Type} [Mul R] [Div R] [NatCast R] [BEq R]
    (C : Common R) (self : FDFImageIOData R) (type eq value : String) :
    headerField C [type, "bigendian", eq, value] self = .ok (bigendianField value self) := by
  simp [headerField]
  rfl

/-- C14: a four-token line named "bigendian" sets the byte order to little endian
when the value token is the string "0" and to big endian for every other value
token, "00", "1" and text that is no number included; nothing else changes. -/
theorem bigendian_sets_byteOrder {R : Type} [Mul R] [Div R] [NatCast R] [BEq R]
    (C : Common R) (self : FDFImageIOData R) (type eq value : String) :
    headerField C [type, "bigendian", eq, value] self =
      .ok { self with
        m_ByteOrder := if value = "0" then .LittleEndian else .BigEndian } ∧
    headerField C [type, "bigendian", eq, "0"] self =
      .ok { self with m_ByteOrder := .LittleEndian } ∧
    headerField C [type, "bigendian", eq, "00"] self =
      .ok { self with m_ByteOrder := .BigEndian } ∧
    headerField C [type, "bigendian", eq, "1"] self =
      .ok { self with m_ByteOrder := .BigEndian } ∧
    headerField C [type, "bigendian", eq, "little"] self =
      .ok { self with m_ByteOrder := .BigEndian } := by
  simp only [headerField_bigendian, bigendianField]
  refine ⟨?_, ?_, ?_, ?_, ?_⟩
  · split <;> rfl
  · simp
  · simp
  · simp
  · simp

/-! ## The `origin` field -/

section Origin

variable {R : Type}

theorem set_append_drop {α : Type} (A l : List α) (v : α) (h : A.length < l.length) :
    (A ++ l.drop A.length).set A.length v = A ++ v :: l.drop (A.length + 1) := by
  rw [List.set_append_right _ _ (Nat.le_refl _), Nat.sub_self, List.drop_eq_getElem_cons h]
  rfl

/-- The loop of the origin branch writes the first entries of the origin, one per
parsed value. -/
theorem foldl_enum_SetOrigin (f : R → R) (origin : List R) (self : FDFImageIOData R)
    (h : origin.length ≤ self.m_Origin.length) :
    origin.enum.foldl (fun self ix => SetOrigin self ix.1 (f ix.2)) self =
      { self with m_Origin := origin.map f ++ self.m_Origin.drop origin.length } := by
  induction origin using List.reverseRecOn with
  | nil => simp
  | append_singleton xs a ih =>
    have hlen : xs.length < self.m_Origin.length := by
      simp only [List.length_append, List.length_singleton] at h
      omega
    rw [List.enum_append, List.foldl_append, ih (by omega)]
    have hset := set_append_drop (xs.map f) self.m_Origin (f a) (by simpa using hlen)
    simp only [List.length_map] at hset
    simp [List.enumFrom, SetOrigin, hset]

/-- A four-token line named "origin" runs the origin branch and no other. -/
theorem headerField_origin [Mul R] [Div R] [NatCast R] [BEq R] (C : Common R)
    (self : FDFImageIOData R) (type eq value : String) :
    headerField C [type, "origin", eq, value] self = .ok (originField C value self) := by
  simp [headerField]
  rfl

/-- The origin branch on a well-formed object: the number of dimensions is widened
to the number of parsed values when this is larger, and the origin starts with
the parsed values divided by 10. -/
theorem originField_spec [Div R] [NatCast R] (C : Common R) (value : String)
    (self : FDFImageIOData R) (hwf : self.WellFormed) :
    (originField C value self).m_NumberOfDimensions =
        max self.m_NumberOfDimensions (C.StringToVector value []).length ∧
      ∃ rest, (originField C value self).m_Origin =
        (C.StringToVector value []).map (fun x => x / ((10 : Nat) : R)) ++ rest := by
  unfold originField
  by_cases hk : self.m_NumberOfDimensions < (C.StringToVector value []).length
  · have hne : (C.StringToVector value []).length ≠ self.m_NumberOfDimensions := by omega
    have hwide := SetNumberOfDimensions_wellFormed self (C.StringToVector value []).length hwf
    have hn := hwide.2 hne
    simp only [hk, if_true]
    rw [foldl_enum_SetOrigin (fun x => x / ((10 : Nat) : R)) _ _ (by rw [hwide.1.2.2.1, hn])]
    exact ⟨by simp only [hn]; omega, _, rfl⟩
  · simp only [hk, if_false]
    rw [foldl_enum_SetOrigin (fun x => x / ((10 : Nat) : R)) _ _ (by rw [hwf.2.2.1]; omega)]
    exact ⟨by simp only []; omega, _, rfl⟩

/-- C15: on a well-formed object, a four-token line named "origin" whose list has
`k` values succeeds; afterwards the entry `i` of the origin is the `i`-th value
divided by 10 for every `i < k`, and the number of dimensions is the maximum of
its previous value and `k`. -/
theorem origin_sets_origin [Mul R] [Div R] [NatCast R] [BEq R] (C : Common R)
    (self : FDFImageIOData R) (type eq value : String) (hwf : self.WellFormed) :
    ∃ self1, headerField C [type, "origin", eq, value] self = .ok self1 ∧
      self1.m_NumberOfDimensions =
        max self.m_NumberOfDimensions (C.StringToVector value []).length ∧
      ∀ (i : Nat) (x : R), (C.StringToVector value [])[i]? = some x →
        self1.m_Origin[i]? = some (x / ((10 : Nat) : R)) := by
  obtain ⟨hn, rest, horigin⟩ := originField_spec C value self hwf
  refine ⟨_, headerField_origin C self type eq value, hn, fun i x hx => ?_⟩
  have hi : i < (C.StringToVector value []).length := by
    by_contra hcon
    rw [List.getElem?_eq_none (by omega)] at hx
    exact absurd hx (by simp)
  rw [horigin, List.getElem?_append_left (by simpa using hi), List.getElem?_map, hx]
  rfl

/-- C15 at a two-dimensional object and an origin line of two values, 10 and 20:
the origin becomes 1, 2. -/
theorem origin_sets_origin_witness :
    header64.WellFormed ∧
    ∃ self1, headerField exampleCommon ["float", "origin", "=", "{10,20}"] header64 =
        .ok self1 ∧
      self1.m_NumberOfDimensions = 2 ∧ self1.m_Origin[0]? = some 1 ∧
      self1.m_Origin[1]? = some 2 := by
  have hwf : header64.WellFormed := ⟨rfl, rfl, rfl, rfl⟩
  obtain ⟨self1, h1, h2, h3⟩ :=
    origin_sets_origin exampleCommon header64 "float" "=" "{10,20}" hwf
  have hlist : exampleCommon.StringToVector "{10,20}" [] = [10, 20] := by
    simp [exampleCommon, exampleList]
  rw [hlist] at h2 h3
  refine ⟨hwf, self1, h1, by simpa [header64] using h2, ?_, ?_⟩
  · have := h3 0 10 rfl
    rw [this]
    norm_num
  · have := h3 1 20 rfl
    rw [this]
    norm_num

end Origin

/-! ## The end of the header -/

/-- The header loop does not look past the first empty line. -/
theorem headerLoop_append_empty {R : Type} [Mul R] [Div R] [NatCast R] [BEq R]
    (C : Common R) (before after : List String) (self : FDFImageIOData R)
    (hbefore : ∀ line ∈ before, line ≠ "") :
    headerLoop C (before ++ "" :: after) self = headerLoop C before self := by
  induction before generalizing self with
  | nil => simp [headerLoop]
  | cons line rest ih =>
    have hline : line ≠ "" := hbefore line (List.mem_cons_self _ _)
    have hrest : ∀ l ∈ rest, l ≠ "" := fun l hl => hbefore l (List.mem_cons_of_mem _ hl)
    simp only [List.cons_append, headerLoop, hline, if_false]
    cases headerField C (C.Tokenize (C.ParseLine line)) self with
    | error e => rfl
    | ok self1 => exact ih self1 hrest

/-- C19: the result of the header loop depends only on the lines before the first
empty line: two files that agree on these lines give the same result, whatever
follows the empty line, and this result is the one of the loop over these lines
alone. -/
theorem headerLoop_stops_at_empty_line {R : Type} [Mul R] [Div R] [NatCast R] [BEq R]
    (C : Common R) (before after1 after2 : List String) (self : FDFImageIOData R)
    (hbefore : ∀ line ∈ before, line ≠ "") :
    headerLoop C (before ++ "" :: after1) self = headerLoop C (before ++ "" :: after2) self ∧
    headerLoop C (before ++ "" :: after1) self = headerLoop C before self := by
  rw [headerLoop_append_empty C before after1 self hbefore,
    headerLoop_append_empty C before after2 self hbefore]
  exact ⟨rfl, rfl⟩

/-- C19 at a header of one line followed by an empty line and two different
payloads. -/
theorem headerLoop_stops_at_empty_line_witness :
    (∀ line ∈ ["int bigendian = 0;"], line ≠ "") ∧
    headerLoop rationalCommon (["int bigendian = 0;"] ++ "" :: ["payload"]) header64 =
      headerLoop rationalCommon (["int bigendian = 0;"] ++ "" :: ["other", "bytes"])
        header64 ∧
    headerLoop rationalCommon (["int bigendian = 0;"] ++ "" :: ["payload"]) header64 =
      headerLoop rationalCommon ["int bigendian = 0;"] header64 :=
  ⟨by decide,
    headerLoop_stops_at_empty_line rationalCommon ["int bigendian = 0;"] ["payload"]
      ["other", "bytes"] header64 (by decide)⟩

/-! ## `Read` -/

section Reading

variable {R : Type}

/-- `Read` throws when the stream refuses the position. -/
theorem Read_of_seekgFails (P : Platform) (B : StreamBehaviour) (fs : FileSystem)
    (self : FDFImageIOData R) (buffer : List Byte)
    (h : ∀ inFile, fs self.m_FileName = some inFile →
      seekgFails B inFile.bytes.length self.m_InputPosition = true) :
    Read P B fs self buffer = .error .raised := by
  unfold Read
  cases hfs : fs self.m_FileName with
  | none => rfl
  | some inFile => simp [h inFile hfs]

theorem seekgFails_of_neg (B : StreamBehaviour) (size : Nat) (pos : Int) (h : pos < 0) :
    seekgFails B size pos = true := by
  simp [seekgFails, h]

/-- C18: when `m_InputPosition` is negative, `Read` throws and delivers no buffer;
every `Read` that returns had `m_InputPosition >= 0`; and when the file is smaller
than the product of the dimensions times the component size, the end of
`ReadImageInformation` computes a negative `m_InputPosition`, so that the `Read`
that follows throws. -/
theorem Read_negative_position [Mul R] [Div R] [NatCast R] (P : Platform)
    (B : StreamBehaviour) (fs : FileSystem) (self : FDFImageIOData R)
    (buffer : List Byte) (fileSize : Nat) :
    (self.m_InputPosition < 0 → Read P B fs self buffer = .error .raised) ∧
    (∀ out, Read P B fs self buffer = .ok out → 0 ≤ self.m_InputPosition) ∧
    (∀ size, self.WellFormed → GetComponentSize P self.m_ComponentType = .ok size →
      self.m_NumberOfDimensions ≤ self.m_Roi.length →
      fileSize < self.m_Dimensions.prod * size →
      ∃ self1, finishHeader P fileSize self = .ok self1 ∧ self1.m_InputPosition < 0 ∧
        Read P B fs self1 buffer = .error .raised) := by
  have hneg : ∀ (s : FDFImageIOData R), s.m_InputPosition < 0 →
      Read P B fs s buffer = .error .raised := fun s hs =>
    Read_of_seekgFails P B fs s buffer (fun _ _ => seekgFails_of_neg B _ _ hs)
  refine ⟨hneg self, fun out hout => ?_, fun size hwf hsize hroi hsmall => ?_⟩
  · by_contra hcon
    rw [hneg self (by omega)] at hout
    exact absurd hout (by simp)
  · have hpos : ((fileSize : Int) - ((self.m_Dimensions.prod * size : Nat) : Int)) < 0 := by
      omega
    exact ⟨_, finishHeader_eq P fileSize self size hwf hsize hroi, hpos, hneg _ hpos⟩

/-- C18 at an object whose payload would start one byte before the file. -/
theorem Read_negative_position_witness :
    header2x2Negative.m_InputPosition < 0 ∧
    Read ⟨false, true⟩ ⟨false, false⟩ twoByteFiles header2x2Negative [0, 0, 0, 0] =
      .error .raised :=
  ⟨by decide,
    (Read_negative_position ⟨false, true⟩ ⟨false, false⟩ twoByteFiles header2x2Negative
      [0, 0, 0, 0] 3).1 (by decide)⟩

/-- C12: on a file of two bytes, an object that expects four bytes of payload at
the position 0 and a buffer of four bytes, `Read` returns normally with the first
two bytes of the buffer filled, whether or not the library refuses positions after
the end; and when the position 5 lies after the end of the file and the library
accepts it, `Read` returns normally with the buffer untouched. -/
theorem Read_short_file_returns :
    GetImageSizeInBytes ⟨false, true⟩ header2x2AtStart = .ok 4 ∧
    Read ⟨false, true⟩ ⟨false, false⟩ twoByteFiles header2x2AtStart [0, 0, 0, 0] =
      .ok [1, 2, 0, 0] ∧
    Read ⟨false, true⟩ ⟨true, false⟩ twoByteFiles header2x2AtStart [0, 0, 0, 0] =
      .ok [1, 2, 0, 0] ∧
    Read ⟨false, true⟩ ⟨false, false⟩ twoByteFiles
        { header2x2AtStart with m_InputPosition := 5 } [0, 0, 0, 0] =
      .ok [0, 0, 0, 0] := by
  decide

end Reading

/-! ## A dimension of size zero -/

section ZeroAxis

variable {R : Type}

/-- C17 refuted: the first axis of the object has size 0, it is the divisor of the
first pass of the spacing loop, and the end of `ReadImageInformation` returns an
object: no error is raised. -/
theorem zero_dimension_no_error :
    headerZeroAxis.m_Dimensions[0]? = some 0 ∧
    ∃ self1, finishHeader ⟨false, true⟩ 20000 headerZeroAxis = .ok self1 :=
  ⟨rfl, _, finishHeader_eq ⟨false, true⟩ 20000 headerZeroAxis 4 ⟨rfl, rfl, rfl, rfl⟩ rfl
    (by decide)⟩

/-- C17 as the code has it: when `dimensions[i]` is zero, the end of
`ReadImageInformation` on a well-formed object with a resolved component type and
a `roi` entry for each axis raises no error; it returns, and the spacing of axis
`i` is the quotient of `roi[i] * 10` by zero that the arithmetic of the numbers
gives. -/
theorem zero_dimension_spacing [Mul R] [Div R] [NatCast R] (P : Platform)
    (fileSize : Nat) (self : FDFImageIOData R) (i : Nat) (hwf : self.WellFormed)
    (hct : self.m_ComponentType ≠ .UNKNOWNCOMPONENTTYPE)
    (hroi : self.m_NumberOfDimensions ≤ self.m_Roi.length)
    (hi : i < self.m_NumberOfDimensions) (hzero : self.m_Dimensions[i]? = some 0) :
    ∃ self1 roi, finishHeader P fileSize self = .ok self1 ∧ self.m_Roi[i]? = some roi ∧
      self1.m_Spacing[i]? = some (roi * ((10 : Nat) : R) / ((0 : Nat) : R)) := by
  obtain ⟨size, hsize, -⟩ := GetComponentSize_resolved P _ hct
  have hlt : i < self.m_Roi.length := by omega
  refine ⟨_, self.m_Roi[i], finishHeader_eq P fileSize self size hwf hsize hroi,
    List.getElem?_eq_getElem hlt, ?_⟩
  simp only [List.getElem?_zipWith, List.getElem?_take, hi, if_true,
    List.getElem?_eq_getElem hlt, hzero]

/-- C17 as the code has it, at the object whose first axis has size 0. -/
theorem zero_dimension_spacing_witness :
    headerZeroAxis.WellFormed ∧
    headerZeroAxis.m_ComponentType ≠ .UNKNOWNCOMPONENTTYPE ∧
    headerZeroAxis.m_NumberOfDimensions ≤ headerZeroAxis.m_Roi.length ∧
    0 < headerZeroAxis.m_NumberOfDimensions ∧
    headerZeroAxis.m_Dimensions[0]? = some 0 ∧
    ∃ self1 roi, finishHeader ⟨false, true⟩ 20000 headerZeroAxis = .ok self1 ∧
      headerZeroAxis.m_Roi[0]? = some roi ∧
      self1.m_Spacing[0]? = some (roi * ((10 : Nat) : ℚ) / ((0 : Nat) : ℚ)) :=
  ⟨⟨rfl, rfl, rfl, rfl⟩, by decide, by decide, by decide, rfl,
    zero_dimension_spacing ⟨false, true⟩ 20000 headerZeroAxis 0 ⟨rfl, rfl, rfl, rfl⟩
      (by decide) (by decide) (by decide) rfl⟩

end ZeroAxis

/-! ## Vector accesses of the header pass -/

section InRange

variable {R : Type}

/-- When a loop that can fail returns, every pass has returned: what a returning
pass needs of its element holds for every element. -/
theorem foldlM_ok_all {σ α : Type} (f : σ → α → Except Error σ) (I : σ → Prop)
    (Q : α → Prop) (hstep : ∀ s a s1, I s → f s a = .ok s1 → Q a ∧ I s1)
    (l : List α) (s s1 : σ) (hs : I s) (h : l.foldlM f s = .ok s1) : ∀ a ∈ l, Q a := by
  induction l generalizing s with
  | nil => intro a ha; exact absurd ha (List.not_mem_nil a)
  | cons b l ih =>
    rw [List.foldlM_cons] at h
    cases hfb : f s b with
    | error e =>
      rw [hfb] at h
      exact absurd h (by simp [bind, Except.bind])
    | ok s2 =>
      rw [hfb] at h
      obtain ⟨hq, hi⟩ := hstep s b s2 hs hfb
      intro a ha
      rcases List.mem_cons.mp ha with rfl | ha
      · exact hq
      · exact ih s2 hi h a ha

/-- A loop whose passes fail with one error only fails with this error only. -/
theorem foldlM_error_eq {σ α : Type} (f : σ → α → Except Error σ) (err : Error)
    (hstep : ∀ s a e, f s a = .error e → e = err)
    (l : List α) (s : σ) (e : Error) (h : l.foldlM f s = .error e) : e = err := by
  induction l generalizing s with
  | nil => simp [pure, Except.pure] at h
  | cons b l ih =>
    rw [List.foldlM_cons] at h
    cases hfb : f s b with
    | error e1 =>
      rw [hfb] at h
      simp only [bind, Except.bind, Except.error.injEq] at h
      exact h ▸ hstep s b e1 hfb
    | ok s2 =>
      rw [hfb] at h
      exact ih s2 h

theorem vectorAt_ok_lt {α : Type} (v : List α) (i : Nat) (x : α) (h : vectorAt v i = .ok x) :
    i < v.length := by
  unfold vectorAt at h
  by_contra hcon
  rw [List.getElem?_eq_none (by omega)] at h
  exact absurd h (by simp)

theorem vectorAt_error {α : Type} (v : List α) (i : Nat) (e : Error)
    (h : vectorAt v i = .error e) : e = .outOfRange := by
  unfold vectorAt at h
  split at h
  · exact absurd h (by simp)
  · simp only [Except.error.injEq] at h
    exact h.symm

theorem orientationInner_ok (orientation : List R) (numDim i j : Nat)
    (st st1 : vnl_matrix R × List R)
    (h : orientationInner orientation numDim i st j = .ok st1) :
    i * numDim + j < orientation.length := by
  unfold orientationInner at h
  cases hv : vectorAt orientation (i * numDim + j) with
  | error e =>
    rw [hv] at h
    exact absurd h (by simp [bind, Except.bind])
  | ok x => exact vectorAt_ok_lt _ _ x hv

theorem orientationInner_error (orientation : List R) (numDim i j : Nat)
    (st : vnl_matrix R × List R) (e : Error)
    (h : orientationInner orientation numDim i st j = .error e) : e = .outOfRange := by
  unfold orientationInner at h
  cases hv : vectorAt orientation (i * numDim + j) with
  | error e1 =>
    rw [hv] at h
    simp only [bind, Except.bind, Except.error.injEq] at h
    exact h ▸ vectorAt_error _ _ e1 hv
  | ok x =>
    rw [hv] at h
    exact absurd h (by simp [bind, Except.bind, pure, Except.pure])

theorem orientationOuter_ok (orientation : List R) (numDim i : Nat)
    (st st1 : FDFImageIOData R × vnl_matrix R)
    (h : orientationOuter orientation numDim st i = .ok st1) :
    ∀ j ∈ List.range numDim, i * numDim + j < orientation.length := by
  unfold orientationOuter at h
  cases hin : (List.range numDim).foldlM (orientationInner orientation numDim i) (st.2, [])
    with
  | error e =>
    rw [hin] at h
    exact absurd h (by simp [bind, Except.bind])
  | ok inner =>
    exact foldlM_ok_all _ (fun _ => True) _
      (fun s a s1 _ hs => ⟨orientationInner_ok orientation numDim i a s s1 hs, trivial⟩)
      _ _ _ trivial hin

theorem orientationOuter_error (orientation : List R) (numDim i : Nat)
    (st : FDFImageIOData R × vnl_matrix R) (e : Error)
    (h : orientationOuter orientation numDim st i = .error e) : e = .outOfRange := by
  unfold orientationOuter at h
  cases hin : (List.range numDim).foldlM (orientationInner orientation numDim i) (st.2, [])
    with
  | error e1 =>
    rw [hin] at h
    simp only [bind, Except.bind, Except.error.injEq] at h
    exact h ▸ foldlM_error_eq _ _
      (fun s a e2 => orientationInner_error orientation numDim i a s e2) _ _ _ hin
  | ok inner =>
    rw [hin] at h
    exact absurd h (by simp [bind, Except.bind, pure, Except.pure])

/-- When the orientation branch returns, the list has a value for every index
`i * numDim + j` that the loops read, hence `numDim * numDim` values. -/
theorem orientationField_ok_length [NatCast R] [BEq R] (C : Common R) (value : String)
    (self self1 : FDFImageIOData R) (h : orientationField C value self = .ok self1) :
    self.m_NumberOfDimensions * self.m_NumberOfDimensions ≤
      (C.StringToVector value []).length := by
  unfold orientationField at h
  simp only [bind, Except.bind] at h
  split at h
  · exact absurd h (by simp)
  · rename_i st hst
    have hall := foldlM_ok_all _ (fun _ => True)
      (fun i => ∀ j ∈ List.range self.m_NumberOfDimensions,
        i * self.m_NumberOfDimensions + j < (C.StringToVector value []).length)
      (fun s a s1 _ hs =>
        ⟨orientationOuter_ok (C.StringToVector value []) self.m_NumberOfDimensions a s s1 hs,
          trivial⟩)
      _ _ _ trivial hst
    cases hn : self.m_NumberOfDimensions with
    | zero => simp
    | succ n =>
      rw [hn] at hall
      have hlast := hall n (by simp) n (by simp)
      have hmul : (n + 1) * (n + 1) = n * (n + 1) + n + 1 := by ring
      omega

/-- The orientation branch fails with an out-of-range access only. -/
theorem orientationField_error [NatCast R] [BEq R] (C : Common R) (value : String)
    (self : FDFImageIOData R) (e : Error) (h : orientationField C value self = .error e) :
    e = .outOfRange := by
  unfold orientationField at h
  simp only [bind, Except.bind] at h
  split at h
  · rename_i e1 hst
    simp only [Except.error.injEq] at h
    exact h ▸ foldlM_error_eq _ _
      (fun s a e2 => orientationOuter_error (C.StringToVector value [])
        self.m_NumberOfDimensions a s e2) _ _ _ hst
  · split at h <;> exact absurd h (by simp [pure, Except.pure])

theorem spacingStep_ok [Mul R] [Div R] [NatCast R] (s s1 : FDFImageIOData R) (i : Nat)
    (h : spacingStep s i = .ok s1) : i < s.m_Roi.length ∧ s1.m_Roi = s.m_Roi := by
  unfold spacingStep at h
  cases hr : vectorAt s.m_Roi i with
  | error e =>
    rw [hr] at h
    exact absurd h (by simp [bind, Except.bind])
  | ok roi =>
    rw [hr] at h
    cases hd : GetDimensions s i with
    | error e =>
      rw [hd] at h
      exact absurd h (by simp [bind, Except.bind])
    | ok dim =>
      rw [hd] at h
      simp only [bind, Except.bind, pure, Except.pure, Except.ok.injEq] at h
      exact ⟨vectorAt_ok_lt _ _ roi hr, by rw [← h]; rfl⟩

theorem spacingStep_error [Mul R] [Div R] [NatCast R] (s : FDFImageIOData R) (i : Nat)
    (e : Error) (h : spacingStep s i = .error e) : e = .outOfRange := by
  unfold spacingStep at h
  cases hr : vectorAt s.m_Roi i with
  | error e1 =>
    rw [hr] at h
    simp only [bind, Except.bind, Except.error.injEq] at h
    exact h ▸ vectorAt_error _ _ e1 hr
  | ok roi =>
    rw [hr] at h
    cases hd : GetDimensions s i with
    | error e1 =>
      rw [hd] at h
      simp only [bind, Except.bind, Except.error.injEq] at h
      exact h ▸ vectorAt_error _ _ e1 hd
    | ok dim =>
      rw [hd] at h
      exact absurd h (by simp [bind, Except.bind, pure, Except.pure])

/-- When the end of `ReadImageInformation` returns, `roi` has an entry for every
axis. -/
theorem finishHeader_ok_length [Mul R] [Div R] [NatCast R] (P : Platform) (fileSize : Nat)
    (self self1 : FDFImageIOData R) (h : finishHeader P fileSize self = .ok self1) :
    self.m_NumberOfDimensions ≤ self.m_Roi.length := by
  unfold finishHeader at h
  cases hsize : GetImageSizeInBytes P self with
  | error e =>
    rw [hsize] at h
    exact absurd h (by simp [bind, Except.bind])
  | ok size =>
    rw [hsize] at h
    simp only [bind, Except.bind] at h
    have hall := foldlM_ok_all spacingStep
      (fun (s : FDFImageIOData R) => s.m_Roi = self.m_Roi)
      (fun i => i < self.m_Roi.length)
      (fun s a s1 hs hstep => by
        obtain ⟨h1, h2⟩ := spacingStep_ok s s1 a hstep
        exact ⟨hs ▸ h1, h2.trans hs⟩)
      _ _ _ (by rfl) h
    cases hn : self.m_NumberOfDimensions with
    | zero => omega
    | succ n =>
      simp only [hn] at hall
      have := hall n (by simp)
      omega

/-- With a resolved component type, the end of `ReadImageInformation` fails with
an out-of-range access only. -/
theorem finishHeader_error [Mul R] [Div R] [NatCast R] (P : Platform) (fileSize : Nat)
    (self : FDFImageIOData R) (e : Error)
    (hct : self.m_ComponentType ≠ .UNKNOWNCOMPONENTTYPE)
    (h : finishHeader P fileSize self = .error e) : e = .outOfRange := by
  obtain ⟨size, hsize, -⟩ := GetComponentSize_resolved P _ hct
  unfold finishHeader at h
  simp only [GetImageSizeInBytes, hsize, bind, Except.bind, pure, Except.pure] at h
  exact foldlM_error_eq spacingStep _ (fun s a e1 => spacingStep_error s a e1) _ _ _ h

/-- C20: on a well-formed object with a resolved component type, the orientation
branch reads its list in range exactly when the list has `n * n` values for the
`n` dimensions of the moment (it returns then, and stops at an out-of-range access
otherwise), and the spacing loop reads `roi` in range exactly when `roi` has an
entry for each dimension; with an empty `roi` and a dimension, `roi[0]` is out of
range. -/
theorem vector_accesses_in_range [Mul R] [Div R] [NatCast R] [BEq R] (C : Common R)
    (P : Platform) (fileSize : Nat) (self : FDFImageIOData R) (type eq value : String)
    (hwf : self.WellFormed) (hct : self.m_ComponentType ≠ .UNKNOWNCOMPONENTTYPE) :
    ((∃ self1, headerField C [type, "orientation", eq, value] self = .ok self1) ↔
      self.m_NumberOfDimensions * self.m_NumberOfDimensions ≤
        (C.StringToVector value []).length) ∧
    (headerField C [type, "orientation", eq, value] self = .error .outOfRange ↔
      (C.StringToVector value []).length <
        self.m_NumberOfDimensions * self.m_NumberOfDimensions) ∧
    ((∃ self1, finishHeader P fileSize self = .ok self1) ↔
      self.m_NumberOfDimensions ≤ self.m_Roi.length) ∧
    (finishHeader P fileSize self = .error .outOfRange ↔
      self.m_Roi.length < self.m_NumberOfDimensions) ∧
    (self.m_Roi = [] → 1 ≤ self.m_NumberOfDimensions →
      finishHeader P fileSize self = .error .outOfRange) := by
  rw [headerField_orientation]
  have ho1 : (∃ self1, orientationField C value self = .ok self1) ↔
      self.m_NumberOfDimensions * self.m_NumberOfDimensions ≤
        (C.StringToVector value []).length :=
    ⟨fun ⟨self1, h⟩ => orientationField_ok_length C value self self1 h,
      fun h => ⟨_, orientationField_eq C value self hwf h⟩⟩
  have ho2 : orientationField C value self = .error .outOfRange ↔
      (C.StringToVector value []).length <
        self.m_NumberOfDimensions * self.m_NumberOfDimensions := by
    constructor
    · intro h
      by_contra hcon
      obtain ⟨self1, h1⟩ := ho1.mpr (by omega)
      rw [h1] at h
      exact absurd h (by simp)
    · intro h
      cases hres : orientationField C value self with
      | error e => rw [orientationField_error C value self e hres]
      | ok self1 =>
        have := ho1.mp ⟨self1, hres⟩
        omega
  have hf1 : (∃ self1, finishHeader P fileSize self = .ok self1) ↔
      self.m_NumberOfDimensions ≤ self.m_Roi.length := by
    constructor
    · rintro ⟨self1, h⟩
      exact finishHeader_ok_length P fileSize self self1 h
    · intro h
      obtain ⟨size, hsize, -⟩ := GetComponentSize_resolved P _ hct
      exact ⟨_, finishHeader_eq P fileSize self size hwf hsize h⟩
  have hf2 : finishHeader P fileSize self = .error .outOfRange ↔
      self.m_Roi.length < self.m_NumberOfDimensions := by
    constructor
    · intro h
      by_contra hcon
      obtain ⟨self1, h1⟩ := hf1.mpr (by omega)
      rw [h1] at h
      exact absurd h (by simp)
    · intro h
      cases hres : finishHeader P fileSize self with
      | error e => rw [finishHeader_error P fileSize self e hct hres]
      | ok self1 =>
        have := hf1.mp ⟨self1, hres⟩
        omega
  refine ⟨ho1, ho2, hf1, hf2, fun hempty hn => hf2.mpr ?_⟩
  rw [hempty]
  exact hn

/-- C20 at an object of two dimensions with an empty `roi` and an orientation
line of six values. -/
theorem vector_accesses_in_range_witness :
    ({ header64 with m_Roi := [] } : FDFImageIOData ℚ).WellFormed ∧
    ({ header64 with m_Roi := [] } : FDFImageIOData ℚ).m_ComponentType ≠
      .UNKNOWNCOMPONENTTYPE ∧
    (∃ self1, headerField rationalCommon ["float", "orientation", "=", "{1,0,0,1,0,0}"]
      { header64 with m_Roi := [] } = .ok self1) ∧
    finishHeader ⟨false, true⟩ 20000 ({ header64 with m_Roi := [] } : FDFImageIOData ℚ) =
      .error .outOfRange := by
  have hwf : ({ header64 with m_Roi := [] } : FDFImageIOData ℚ).WellFormed :=
    ⟨rfl, rfl, rfl, rfl⟩
  have h := vector_accesses_in_range rationalCommon ⟨false, true⟩ 20000
    { header64 with m_Roi := [] } "float" "=" "{1,0,0,1,0,0}" hwf (by decide)
  exact ⟨hwf, by decide, h.1.mpr (by decide), h.2.2.2.2 rfl (by decide)⟩

end InRange

/-! ## The order of the header lines -/

section Order

variable {R : Type}

/-- A change of the state that can be made before or after each pass of a loop
can be made before or after the loop. -/
theorem foldl_comm {σ α : Type} (f : σ → α → σ) (u : σ → σ)
    (h : ∀ s a, f (u s) a = u (f s a)) (l : List α) (s : σ) :
    l.foldl f (u s) = u (l.foldl f s) := by
  induction l generalizing s with
  | nil => rfl
  | cons a l ih => simp only [List.foldl_cons, h, ih]

/-- The same for a loop that can fail. -/
theorem foldlM_comm {σ α : Type} (f : σ → α → Except Error σ) (u : σ → σ)
    (h : ∀ s a, f (u s) a = u <$> f s a) (l : List α) (s : σ) :
    l.foldlM f (u s) = u <$> l.foldlM f s := by
  induction l generalizing s with
  | nil => rfl
  | cons a l ih =>
    simp only [List.foldlM_cons, h]
    cases hfa : f s a with
    | error e => rfl
    | ok s1 => exact ih s1

theorem matrixField_frame [NatCast R] (C : Common R) (value : String)
    (u : FDFImageIOData R → FDFImageIOData R) (hu : GeometryFrame u) (s : FDFImageIOData R) :
    matrixField C value (u s) = u (matrixField C value s) := by
  unfold matrixField
  simp only [hu.numberOfDimensions]
  have hwide : (if s.m_NumberOfDimensions < (C.StringToVector value []).length then
        SetNumberOfDimensions (u s) (C.StringToVector value []).length else u s) =
      u (if s.m_NumberOfDimensions < (C.StringToVector value []).length then
        SetNumberOfDimensions s (C.StringToVector value []).length else s) := by
    split
    · exact hu.setNumberOfDimensions s _
    · rfl
  rw [hwide, foldl_comm _ u (fun s a => hu.setDimensions s a.1 _), hu.setIORegion]

theorem originField_frame [Div R] [NatCast R] (C : Common R) (value : String)
    (u : FDFImageIOData R → FDFImageIOData R) (hu : GeometryFrame u) (s : FDFImageIOData R) :
    originField C value (u s) = u (originField C value s) := by
  unfold originField
  simp only [hu.numberOfDimensions]
  have hwide : (if s.m_NumberOfDimensions < (C.StringToVector value []).length then
        SetNumberOfDimensions (u s) (C.StringToVector value []).length else u s) =
      u (if s.m_NumberOfDimensions < (C.StringToVector value []).length then
        SetNumberOfDimensions s (C.StringToVector value []).length else s) := by
    split
    · exact hu.setNumberOfDimensions s _
    · rfl
  rw [hwide, foldl_comm _ u (fun s a => hu.setOrigin s a.1 _)]

theorem orientationOuter_frame [NatCast R] (orientation : List R) (numDim : Nat)
    (u : FDFImageIOData R → FDFImageIOData R) (hu : GeometryFrame u)
    (st : FDFImageIOData R × vnl_matrix R) (i : Nat) :
    orientationOuter orientation numDim (u st.1, st.2) i =
      (fun st1 : FDFImageIOData R × vnl_matrix R => (u st1.1, st1.2)) <$>
        orientationOuter orientation numDim st i := by
  unfold orientationOuter
  cases (List.range numDim).foldlM (orientationInner orientation numDim i) (st.2, []) with
  | error e => rfl
  | ok inner =>
    simp only [bind, Except.bind, pure, Except.pure, Functor.map, Except.map,
      hu.setDirection]

theorem setIdentityDirections_frame [NatCast R] (numDim : Nat)
    (u : FDFImageIOData R → FDFImageIOData R) (hu : GeometryFrame u) (s : FDFImageIOData R) :
    setIdentityDirections numDim (u s) = u (setIdentityDirections numDim s) := by
  unfold setIdentityDirections
  exact foldl_comm _ u (fun s a => hu.setDirection s a _) _ s

theorem orientationField_frame [NatCast R] [BEq R] (C : Common R) (value : String)
    (u : FDFImageIOData R → FDFImageIOData R) (hu : GeometryFrame u) (s : FDFImageIOData R) :
    orientationField C value (u s) = u <$> orientationField C value s := by
  unfold orientationField
  simp only [hu.numberOfDimensions]
  have hloop := foldlM_comm
    (orientationOuter (C.StringToVector value []) s.m_NumberOfDimensions)
    (fun st1 : FDFImageIOData R × vnl_matrix R => (u st1.1, st1.2))
    (fun st i => orientationOuter_frame _ _ u hu st i)
    (List.range s.m_NumberOfDimensions)
    (s, { rows := s.m_NumberOfDimensions, cols := s.m_NumberOfDimensions,
          data := fun _ _ => ((0 : Nat) : R) })
  simp only [] at hloop
  rw [hloop]
  cases (List.range s.m_NumberOfDimensions).foldlM
      (orientationOuter (C.StringToVector value []) s.m_NumberOfDimensions)
      (s, { rows := s.m_NumberOfDimensions, cols := s.m_NumberOfDimensions,
            data := fun _ _ => ((0 : Nat) : R) }) with
  | error e => rfl
  | ok st =>
    simp only [bind, Except.bind, Functor.map, Except.map]
    split
    · simp only [pure, Except.pure, setIdentityDirections_frame _ u hu]
    · rfl

theorem frame_SpatialRank [NatCast R] (g : String → String) :
    GeometryFrame (fun s : FDFImageIOData R => { s with m_SpatialRank := g s.m_SpatialRank }) :=
  ⟨fun _ => rfl,
    fun s dim => by
      by_cases hd : dim ≠ s.m_NumberOfDimensions
      · simp only [SetNumberOfDimensions, hd, if_true, not_false_eq_true, ne_eq]
      · simp only [SetNumberOfDimensions, hd, if_false],
    fun _ _ _ => rfl, fun _ _ _ => rfl, fun _ _ _ => rfl, fun _ _ => rfl⟩

theorem frame_Span [NatCast R] (g : List R → List R) :
    GeometryFrame (fun s : FDFImageIOData R => { s with m_Span := g s.m_Span }) :=
  ⟨fun _ => rfl,
    fun s dim => by
      by_cases hd : dim ≠ s.m_NumberOfDimensions
      · simp only [SetNumberOfDimensions, hd, if_true, not_false_eq_true, ne_eq]
      · simp only [SetNumberOfDimensions, hd, if_false],
    fun _ _ _ => rfl, fun _ _ _ => rfl, fun _ _ _ => rfl, fun _ _ => rfl⟩

theorem frame_Roi [NatCast R] (g : List R → List R) :
    GeometryFrame (fun s : FDFImageIOData R => { s with m_Roi := g s.m_Roi }) :=
  ⟨fun _ => rfl,
    fun s dim => by
      by_cases hd : dim ≠ s.m_NumberOfDimensions
      · simp only [SetNumberOfDimensions, hd, if_true, not_false_eq_true, ne_eq]
      · simp only [SetNumberOfDimensions, hd, if_false],
    fun _ _ _ => rfl, fun _ _ _ => rfl, fun _ _ _ => rfl, fun _ _ => rfl⟩

theorem frame_Location [NatCast R] (g : List R → List R) :
    GeometryFrame (fun s : FDFImageIOData R => { s with m_Location := g s.m_Location }) :=
  ⟨fun _ => rfl,
    fun s dim => by
      by_cases hd : dim ≠ s.m_NumberOfDimensions
      · simp only [SetNumberOfDimensions, hd, if_true, not_false_eq_true, ne_eq]
      · simp only [SetNumberOfDimensions, hd, if_false],
    fun _ _ _ => rfl, fun _ _ _ => rfl, fun _ _ _ => rfl, fun _ _ => rfl⟩

theorem frame_ByteOrder [NatCast R] (g : IOByteOrderEnum → IOByteOrderEnum) :
    GeometryFrame (fun s : FDFImageIOData R => { s with m_ByteOrder := g s.m_ByteOrder }) :=
  ⟨fun _ => rfl,
    fun s dim => by
      by_cases hd : dim ≠ s.m_NumberOfDimensions
      · simp only [SetNumberOfDimensions, hd, if_true, not_false_eq_true, ne_eq]
      · simp only [SetNumberOfDimensions, hd, if_false],
    fun _ _ _ => rfl, fun _ _ _ => rfl, fun _ _ _ => rfl, fun _ _ => rfl⟩

theorem frame_Bits [NatCast R] (g : Int → Int) :
    GeometryFrame (fun s : FDFImageIOData R => { s with m_Bits := g s.m_Bits }) :=
  ⟨fun _ => rfl,
    fun s dim => by
      by_cases hd : dim ≠ s.m_NumberOfDimensions
      · simp only [SetNumberOfDimensions, hd, if_true, not_false_eq_true, ne_eq]
      · simp only [SetNumberOfDimensions, hd, if_false],
    fun _ _ _ => rfl, fun _ _ _ => rfl, fun _ _ _ => rfl, fun _ _ => rfl⟩

theorem frame_Checksum [NatCast R] (g : Int → Int) :
    GeometryFrame (fun s : FDFImageIOData R => { s with m_Checksum := g s.m_Checksum }) :=
  ⟨fun _ => rfl,
    fun s dim => by
      by_cases hd : dim ≠ s.m_NumberOfDimensions
      · simp only [SetNumberOfDimensions, hd, if_true, not_false_eq_true, ne_eq]
      · simp only [SetNumberOfDimensions, hd, if_false],
    fun _ _ _ => rfl, fun _ _ _ => rfl, fun _ _ _ => rfl, fun _ _ => rfl⟩

theorem frame_ComponentType [NatCast R] (pixelType : IOPixelEnum)
    (componentType : IOComponentEnum) :
    GeometryFrame (fun s : FDFImageIOData R =>
      { s with m_PixelType := pixelType, m_ComponentType := componentType }) :=
  ⟨fun _ => rfl,
    fun s dim => by
      by_cases hd : dim ≠ s.m_NumberOfDimensions
      · simp only [SetNumberOfDimensions, hd, if_true, not_false_eq_true, ne_eq]
      · simp only [SetNumberOfDimensions, hd, if_false],
    fun _ _ _ => rfl, fun _ _ _ => rfl, fun _ _ _ => rfl, fun _ _ => rfl⟩

theorem frame_id [NatCast R] : GeometryFrame (fun s : FDFImageIOData R => s) :=
  ⟨fun _ => rfl,
    fun s dim => by
      by_cases hd : dim ≠ s.m_NumberOfDimensions
      · simp only [SetNumberOfDimensions, hd, if_true, not_false_eq_true, ne_eq]
      · simp only [SetNumberOfDimensions, hd, if_false],
    fun _ _ _ => rfl, fun _ _ _ => rfl, fun _ _ _ => rfl, fun _ _ => rfl⟩

/-- The change that a line of `simpleNames` makes passes through the setters of
the geometry. -/
theorem simpleUpdate_frame [NatCast R] (C : Common R) (name value : String) :
    GeometryFrame (simpleUpdate C name value) := by
  by_cases h1 : name = "spatial_rank"
  · subst h1
    have e : simpleUpdate C "spatial_rank" value =
        fun s : FDFImageIOData R =>
          { s with m_SpatialRank := (fun _ => value) s.m_SpatialRank } := by
      funext s
      simp [simpleUpdate]
    rw [e]
    exact frame_SpatialRank (R := R) (fun _ => value)
  by_cases h2 : name = "span"
  · subst h2
    have e : simpleUpdate C "span" value =
        fun s : FDFImageIOData R =>
          { s with m_Span := C.StringToVector value s.m_Span } := by
      funext s
      simp [simpleUpdate]
    rw [e]
    exact frame_Span (R := R) _
  by_cases h3 : name = "roi"
  · subst h3
    have e : simpleUpdate C "roi" value =
        fun s : FDFImageIOData R =>
          { s with m_Roi := C.StringToVector value s.m_Roi } := by
      funext s
      simp [simpleUpdate]
    rw [e]
    exact frame_Roi (R := R) _
  by_cases h4 : name = "location"
  · subst h4
    have e : simpleUpdate C "location" value =
        fun s : FDFImageIOData R =>
          { s with m_Location := C.StringToVector value s.m_Location } := by
      funext s
      simp [simpleUpdate]
    rw [e]
    exact frame_Location (R := R) _
  by_cases h5 : name = "bigendian"
  · subst h5
    have e : simpleUpdate C "bigendian" value =
        fun s : FDFImageIOData R =>
          { s with
            m_ByteOrder :=
              (fun _ => if value = "0" then IOByteOrderEnum.LittleEndian
                else IOByteOrderEnum.BigEndian) s.m_ByteOrder } := by
      funext s
      simp [simpleUpdate]
    rw [e]
    exact frame_ByteOrder (R := R)
      (fun _ => if value = "0" then IOByteOrderEnum.LittleEndian else IOByteOrderEnum.BigEndian)
  by_cases h6 : name = "storage"
  · subst h6
    have e : simpleUpdate C "storage" value =
        fun s : FDFImageIOData R =>
          { s with m_PixelType := .SCALAR, m_ComponentType := storageTag value } := by
      funext s
      simp [simpleUpdate]
    rw [e]
    exact frame_ComponentType (R := R) _ _
  by_cases h7 : name = "bits"
  · subst h7
    have e : simpleUpdate C "bits" value =
        fun s : FDFImageIOData R =>
          { s with m_Bits := C.ConvertFromString value s.m_Bits } := by
      funext s
      simp [simpleUpdate]
    rw [e]
    exact frame_Bits (R := R) _
  by_cases h8 : name = "checksum"
  · subst h8
    have e : simpleUpdate C "checksum" value =
        fun s : FDFImageIOData R =>
          { s with m_Checksum := C.ConvertFromString value s.m_Checksum } := by
      funext s
      simp [simpleUpdate]
    rw [e]
    exact frame_Checksum (R := R) _
  have e : simpleUpdate C name value = fun s : FDFImageIOData R => s := by
    funext s
    simp only [simpleUpdate, h1, h2, h3, h4, h5, h6, h7, h8, if_false]
  rw [e]
  exact frame_id

/-- A four-token line named "matrix" runs the matrix branch and no other. -/
theorem headerField_matrix [Mul R] [Div R] [NatCast R] [BEq R] (C : Common R)
    (self : FDFImageIOData R) (type eq value : String) :
    headerField C [type, "matrix", eq, value] self = .ok (matrixField C value self) := by
  simp [headerField]
  rfl

/-- The storage branch in one formula. -/
theorem storageField_eq (value : String) (self : FDFImageIOData R) :
    storageField value self =
      if value ∈ storageKeywords then
        .ok { self with m_PixelType := .SCALAR, m_ComponentType := storageTag value }
      else .error (.unknownComponentType value) := by
  by_cases hmem : value ∈ storageKeywords
  · rw [if_pos hmem]
    simp only [storageKeywords, List.mem_cons, List.mem_singleton, List.not_mem_nil,
      or_false] at hmem
    rcases hmem with h | h | h | h | h | h | h | h | h | h <;> subst h <;>
      simp [storageField, storageTag]
  · rw [if_neg hmem, storageField_error_of_not_mem self value hmem]

/-- A line with one of the eight names of `simpleNames` fails with `simpleError`
or makes the change `simpleUpdate`. -/
theorem headerField_simple [Mul R] [Div R] [NatCast R] [BEq R] (C : Common R)
    (self : FDFImageIOData R) (type name eq value : String) (h : name ∈ simpleNames) :
    headerField C [type, name, eq, value] self =
      match simpleError name value with
      | some e => .error e
      | none => .ok (simpleUpdate C name value self) := by
  simp only [simpleNames, List.mem_cons, List.mem_singleton, List.not_mem_nil,
    or_false] at h
  rcases h with h | h | h | h | h | h | h | h <;> subst h
  · simp [headerField, simpleError, simpleUpdate]; rfl
  · simp [headerField, simpleError, simpleUpdate]; rfl
  · simp [headerField, simpleError, simpleUpdate]; rfl
  · simp [headerField, simpleError, simpleUpdate]; rfl
  · rw [headerField_bigendian]
    simp [simpleError, simpleUpdate, bigendianField]
    split <;> rfl
  · rw [headerField_storage, storageField_eq]
    by_cases hmem : value ∈ storageKeywords <;> simp [simpleError, simpleUpdate, hmem]
  · simp [headerField, simpleError, simpleUpdate]; rfl
  · simp [headerField, simpleError, simpleUpdate]; rfl

/-- The changes of two lines of `simpleNames` with different names can be made in
either order. -/
theorem simpleUpdate_comm (C : Common R) (a b v1 v2 : String) (self : FDFImageIOData R)
    (ha : a ∈ simpleNames) (hb : b ∈ simpleNames) (hab : a ≠ b) :
    simpleUpdate C a v1 (simpleUpdate C b v2 self) =
      simpleUpdate C b v2 (simpleUpdate C a v1 self) := by
  simp only [simpleNames, List.mem_cons, List.mem_singleton, List.not_mem_nil,
    or_false] at ha hb
  rcases ha with h | h | h | h | h | h | h | h <;> subst h <;>
    rcases hb with h | h | h | h | h | h | h | h <;> subst h <;>
    first
    | exact absurd rfl hab
    | rfl

theorem fieldNames_split (name : String) (h : name ∈ fieldNames) :
    name ∈ geometryNames ∨ name ∈ simpleNames := by
  simp only [fieldNames, geometryNames, simpleNames, List.mem_cons, List.mem_singleton,
    List.not_mem_nil, or_false] at h ⊢
  tauto

/-- The change of a line of `simpleNames` can be made before or after a line with
another name of the dispatch table. -/
theorem headerField_simpleUpdate [Mul R] [Div R] [NatCast R] [BEq R] (C : Common R)
    (self : FDFImageIOData R) (type a eq v1 b v2 : String) (ha : a ∈ fieldNames)
    (hb : b ∈ simpleNames) (hab : a ≠ b) :
    headerField C [type, a, eq, v1] (simpleUpdate C b v2 self) =
      simpleUpdate C b v2 <$> headerField C [type, a, eq, v1] self := by
  have hu := simpleUpdate_frame C b v2
  rcases fieldNames_split a ha with hgeo | hsimple
  · simp only [geometryNames, List.mem_cons, List.mem_singleton, List.not_mem_nil,
      or_false] at hgeo
    rcases hgeo with h | h | h <;> subst h
    · rw [headerField_matrix, headerField_matrix, matrixField_frame C v1 _ hu]
      rfl
    · rw [headerField_orientation, headerField_orientation,
        orientationField_frame C v1 _ hu]
    · rw [headerField_origin, headerField_origin, originField_frame C v1 _ hu]
      rfl
  · rw [headerField_simple C _ type a eq v1 hsimple,
      headerField_simple C _ type a eq v1 hsimple]
    cases simpleError a v1 with
    | some e => rfl
    | none =>
      simp only [simpleUpdate_comm C a b v1 v2 self hsimple hb hab]
      rfl

/-- Two lines, the second with a name of `simpleNames`, the first with another
name of the dispatch table: both orders give the same object, or none. -/
theorem headerFieldTwice_simple [Mul R] [Div R] [NatCast R] [BEq R] (C : Common R)
    (self : FDFImageIOData R) (t1 a e1 v1 t2 b e2 v2 : String) (ha : a ∈ fieldNames)
    (hb : b ∈ simpleNames) (hab : a ≠ b) :
    (headerFieldTwice C [t1, a, e1, v1] [t2, b, e2, v2] self).toOption =
      (headerFieldTwice C [t2, b, e2, v2] [t1, a, e1, v1] self).toOption := by
  have hfun : headerField C [t2, b, e2, v2] =
      fun s : FDFImageIOData R =>
        match simpleError b v2 with
        | some e => .error e
        | none => .ok (simpleUpdate C b v2 s) :=
    funext fun s => headerField_simple C s t2 b e2 v2 hb
  unfold headerFieldTwice
  rw [hfun]
  cases simpleError b v2 with
  | some e =>
    cases headerField C [t1, a, e1, v1] self <;> rfl
  | none =>
    simp only [bind, Except.bind]
    rw [headerField_simpleUpdate C self t1 a e1 v1 b v2 ha hb hab]
    cases headerField C [t1, a, e1, v1] self <;> rfl

/-- C16 refuted: from the object as constructed, a matrix line of two values and
an orientation line of four values give the declared directions in one order and
the identity in the other; a matrix line of three values and an origin line of two
values give the origin 1, 2, 0 in one order and 0, 0, 0 in the other; an origin
line of two values and an orientation line of four values give the declared
directions in one order and the identity in the other. -/
theorem field_order_matters :
    ((headerFieldTwice exampleCommon ["float", "matrix", "=", "{2,2}"]
        ["float", "orientation", "=", "{0,1,1,0}"]
        (FDFImageIOData.constructed ℚ)).toOption.map (fun s => s.m_Direction) =
      some [[0, 1], [1, 0]] ∧
    (headerFieldTwice exampleCommon ["float", "orientation", "=", "{0,1,1,0}"]
        ["float", "matrix", "=", "{2,2}"]
        (FDFImageIOData.constructed ℚ)).toOption.map (fun s => s.m_Direction) =
      some [[1, 0], [0, 1]]) ∧
    ((headerFieldTwice exampleCommon ["float", "matrix", "=", "{2,2,2}"]
        ["float", "origin", "=", "{10,20}"]
        (FDFImageIOData.constructed ℚ)).toOption.map (fun s => s.m_Origin) =
      some [1, 2, 0] ∧
    (headerFieldTwice exampleCommon ["float", "origin", "=", "{10,20}"]
        ["float", "matrix", "=", "{2,2,2}"]
        (FDFImageIOData.constructed ℚ)).toOption.map (fun s => s.m_Origin) =
      some [0, 0, 0]) ∧
    ((headerFieldTwice exampleCommon ["float", "origin", "=", "{10,20}"]
        ["float", "orientation", "=", "{0,1,1,0}"]
        (FDFImageIOData.constructed ℚ)).toOption.map (fun s => s.m_Direction) =
      some [[0, 1], [1, 0]] ∧
    (headerFieldTwice exampleCommon ["float", "orientation", "=", "{0,1,1,0}"]
        ["float", "origin", "=", "{10,20}"]
        (FDFImageIOData.constructed ℚ)).toOption.map (fun s => s.m_Direction) =
      some [[1, 0], [0, 1]]) := by
  decide!

/-- C16 as the code has it: for every object and every two four-token lines whose
names are different entries of the dispatch table, not both among matrix,
orientation and origin, the two orders of interpreting them give the same object,
or no object in both orders. -/
theorem field_order_independent [Mul R] [Div R] [NatCast R] [BEq R] (C : Common R)
    (self : FDFImageIOData R) (t1 a e1 v1 t2 b e2 v2 : String) (ha : a ∈ fieldNames)
    (hb : b ∈ fieldNames) (hab : a ≠ b)
    (hgeo : ¬ (a ∈ geometryNames ∧ b ∈ geometryNames)) :
    (headerFieldTwice C [t1, a, e1, v1] [t2, b, e2, v2] self).toOption =
      (headerFieldTwice C [t2, b, e2, v2] [t1, a, e1, v1] self).toOption := by
  rcases fieldNames_split b hb with hbg | hbs
  · rcases fieldNames_split a ha with hag | has
    · exact absurd ⟨hag, hbg⟩ hgeo
    · exact (headerFieldTwice_simple C self t2 b e2 v2 t1 a e1 v1 hb has
        (fun h => hab h.symm)).symm
  · exact headerFieldTwice_simple C self t1 a e1 v1 t2 b e2 v2 ha hbs hab

/-- C16 as the code has it, at a matrix line and a storage line. -/
theorem field_order_independent_witness :
    "matrix" ∈ fieldNames ∧ "storage" ∈ fieldNames ∧ ("matrix" : String) ≠ "storage" ∧
    ¬ ("matrix" ∈ geometryNames ∧ "storage" ∈ geometryNames) ∧
    (headerFieldTwice exampleCommon ["float", "matrix", "=", "{2,2}"]
        ["char", "storage", "=", "float"] (FDFImageIOData.constructed ℚ)).toOption =
      (headerFieldTwice exampleCommon ["char", "storage", "=", "float"]
        ["float", "matrix", "=", "{2,2}"] (FDFImageIOData.constructed ℚ)).toOption :=
  ⟨by decide, by decide, by decide, by decide,
    field_order_independent exampleCommon (FDFImageIOData.constructed ℚ) "float" "matrix"
      "=" "{2,2}" "char" "storage" "=" "float" (by decide) (by decide) (by decide)
      (by decide)⟩

end Order

end FDF
